import Mathlib

/-!
Verification of the GroundTruth route-planner frontend core.

Shallow embedding of the client-side orchestration layer of
`frontend/src/App.tsx` (together with `components/MapView.tsx` and
`api/client.ts` / `api/markers.ts`): route-variant aggregation and
consolidation (`handleRoute`), the map-click state machine
(`handleMapClick`, hazard-pick dispatch in `MapEventHandler`), the
device-location default-start latch (`requestDeviceLocation`) and the
marker-refresh machinery (the `useEffect` on `[mapBounds, routeChoices]`
and the direct fetch at the end of `handleRoute`).

JavaScript numbers are modelled as rationals (`ℚ`); on rationals the
`JSON.stringify` key used for route deduplication coincides with
element-wise numeric equality of the coordinate lists.  The raw text of
the coordinate input fields is abstracted to the parsed `Option ℚ`
values produced by `parseNumber`; all other modelled state follows the
`useState` fields of `App.tsx`.
-/

namespace GroundTruth

/-- The five route-variant kinds of `api/client.ts` (`RouteVariantKind`). -/
inductive RouteVariantKind
  | walkSafe
  | walkAccessible
  | walkSafeAccessible
  | driveFast
  | driveSafe
deriving DecidableEq, Repr

/-- Travel modes (`types.ts`, `TravelMode`). -/
inductive TravelMode
  | WALK
  | DRIVE
deriving DecidableEq, Repr

/-- A route result as consumed by `handleRoute`; the nested
`routeGeojson.geometry.coordinates` of `types.ts` is flattened to the
`coordinates` field (the `?? []` default of App.tsx line 341 is the
identity on well-typed data). -/
structure RouteResult where
  distanceMeters : ℚ
  durationSeconds : ℚ
  pathNodeIds : List ℤ
  pathEdgeIds : List ℤ
  coordinates : List (ℚ × ℚ)
deriving DecidableEq, Repr

/-- The tagged per-variant outcome of `fetchRouteVariant`
(`api/client.ts`, `RouteResponse`). -/
inductive RouteResponse
  | ok (data : RouteResult)
  | noRoute (message : String)
  | error (message : String) (status : Option ℤ)
deriving DecidableEq, Repr

/-- Table routeKindLabels of App.tsx lines 25-31. -/
def routeKindLabels : RouteVariantKind → String
  | .walkSafe => "Safe"
  | .walkAccessible => "Accessible"
  | .walkSafeAccessible => "Safe + Accessible"
  | .driveFast => "Fastest"
  | .driveSafe => "Safe"

/-- Table routeColors of App.tsx lines 33-39. -/
def routeColors : RouteVariantKind → String
  | .walkSafe => "#16a34a"
  | .walkAccessible => "#1e3a8a"
  | .walkSafeAccessible => "#1f6feb"
  | .driveFast => "#1f6feb"
  | .driveSafe => "#16a34a"

/-- The TypeScript string literal of each variant kind; `Array.join` on a
kinds array concatenates these strings. -/
def kindName : RouteVariantKind → String
  | .walkSafe => "walkSafe"
  | .walkAccessible => "walkAccessible"
  | .walkSafeAccessible => "walkSafeAccessible"
  | .driveFast => "driveFast"
  | .driveSafe => "driveSafe"

/-- The per-mode request list `variants` of `handleRoute`
(App.tsx lines 308-311); requests are issued in this order. -/
def variantsFor : TravelMode → List RouteVariantKind
  | .DRIVE => [.driveFast, .driveSafe]
  | .WALK => [.walkSafe, .walkAccessible, .walkSafeAccessible]

/-- The canonical ranking list `kindOrder` of `handleRoute`
(App.tsx lines 351-354). -/
def kindOrder : TravelMode → List RouteVariantKind
  | .DRIVE => [.driveFast, .driveSafe]
  | .WALK => [.walkSafeAccessible, .walkSafe, .walkAccessible]

/-- The kind sought by the default-selection `find` of App.tsx
lines 374-376: `driveFast` when driving, `walkSafeAccessible` when
walking. -/
def preferredKind : TravelMode → RouteVariantKind
  | .DRIVE => .driveFast
  | .WALK => .walkSafeAccessible

/-- The first variant in request order. -/
def firstVariant : TravelMode → RouteVariantKind
  | .DRIVE => .driveFast
  | .WALK => .walkSafe

/-- The message pushed onto `errorMessages` for one failed variant
(App.tsx lines 325-331); the `response.message ?` truthiness test is
emptiness of the string.  Unreachable on `ok`. -/
def failMessage (kind : RouteVariantKind) : RouteResponse → String
  | .noRoute m =>
      if m = "" then "No route found."
      else "No " ++ routeKindLabels kind ++ " route: " ++ m
  | .error m _ => routeKindLabels kind ++ " route error: " ++ m
  | .ok _ => ""

/-- One entry of the `okRoutes` array (App.tsx line 315). -/
structure OkEntry where
  kind : RouteVariantKind
  result : RouteResult
deriving DecidableEq, Repr

/-- The `okRoutes` array built by the `responses.forEach` of App.tsx
lines 318-332, from the (kind, response) pairs in request order. -/
def okEntries (pairs : List (RouteVariantKind × RouteResponse)) : List OkEntry :=
  pairs.filterMap fun p =>
    match p.2 with
    | .ok r => some ⟨p.1, r⟩
    | .noRoute _ => none
    | .error _ _ => none

/-- The `errorMessages` array built by the same `forEach`, in request
order. -/
def failMessages (pairs : List (RouteVariantKind × RouteResponse)) : List String :=
  pairs.filterMap fun p =>
    match p.2 with
    | .ok _ => none
    | .noRoute m => some (failMessage p.1 (.noRoute m))
    | .error m st => some (failMessage p.1 (.error m st))

/-- One value of the `consolidated` Map of App.tsx line 339; the Map key
`JSON.stringify(coords)` is represented by `result.coordinates` of the
first inserted entry (over rationals, string keys agree exactly with
list equality). -/
structure RouteGroup where
  kinds : List RouteVariantKind
  result : RouteResult
deriving DecidableEq, Repr

/-- One insertion step of the `okRoutes.forEach` of App.tsx
lines 340-349: push the kind onto an existing group with the same
coordinate key, else append a new group (JS `Map` preserves insertion
order). -/
def insertOk (gs : List RouteGroup) (e : OkEntry) : List RouteGroup :=
  match gs with
  | [] => [⟨[e.kind], e.result⟩]
  | g :: rest =>
      if g.result.coordinates = e.result.coordinates then
        ⟨g.kinds ++ [e.kind], g.result⟩ :: rest
      else
        g :: insertOk rest e

/-- Result of taking the Map values (insertion order) after the grouping loop of
App.tsx lines 339-349. -/
def buildGroups (l : List OkEntry) : List RouteGroup :=
  l.foldl insertOk []

/-- Type RouteChoice of App.tsx lines 52-58. -/
structure RouteChoice where
  id : String
  kinds : List RouteVariantKind
  result : RouteResult
  color : String
  label : String
deriving DecidableEq, Repr

/-- One element of the `choices` map of App.tsx lines 355-365. -/
def mkChoice (mode : TravelMode) (g : RouteGroup) : RouteChoice :=
  let orderedKinds := (kindOrder mode).filter fun k => g.kinds.contains k
  { id := String.intercalate "-" (orderedKinds.map kindName)
    kinds := orderedKinds
    result := g.result
    color :=
      match orderedKinds with
      | [] => "#1f6feb"
      | k :: _ => routeColors k
    label := String.intercalate " · " (orderedKinds.map routeKindLabels) }

/-- JavaScript `Array.findIndex`: index of the first match, `-1` when
there is none. -/
def jsFindIndex (p : α → Bool) (l : List α) : ℤ :=
  match l.findIdx? p with
  | some i => (i : ℤ)
  | none => -1

/-- The sort key of the comparator at App.tsx lines 367-371: the
canonical index of the first kind of `kindOrder` contained in the
choice. -/
def choiceRank (mode : TravelMode) (c : RouteChoice) : ℤ :=
  jsFindIndex (fun k => c.kinds.contains k) (kindOrder mode)

/-- Stable insertion used to model `Array.prototype.sort` (stable per
the ECMAScript spec) with the comparator `aIndex - bIndex`. -/
def insertRanked (mode : TravelMode) (c : RouteChoice) :
    List RouteChoice → List RouteChoice
  | [] => [c]
  | d :: rest =>
      if choiceRank mode c ≤ choiceRank mode d then c :: d :: rest
      else d :: insertRanked mode c rest

/-- Stable sort of the choices by `choiceRank` (App.tsx lines 367-371). -/
def sortRanked (mode : TravelMode) : List RouteChoice → List RouteChoice
  | [] => []
  | c :: rest => insertRanked mode c (sortRanked mode rest)

/-- The outcome of the aggregation part of `handleRoute`
(App.tsx lines 315-377): the consolidated route choices, the default
selection and the surfaced error, starting from the state left by
`clearRouteState`. -/
structure RouteAggregate where
  choices : List RouteChoice
  selectedRouteId : Option String
  error : Option String
deriving DecidableEq, Repr

/-- Aggregation of the settled responses (in request order, as returned
by `Promise.all`): App.tsx lines 315-377. -/
def aggregateRoutes (mode : TravelMode) (responses : List RouteResponse) :
    RouteAggregate :=
  let pairs := (variantsFor mode).zip responses
  let oks := okEntries pairs
  if oks = [] then
    { choices := []
      selectedRouteId := none
      error := some ((failMessages pairs).headD "No route found.") }
  else
    let choices := sortRanked mode ((buildGroups oks).map (mkChoice mode))
    let defaultChoice := choices.find? fun c => c.kinds.contains (preferredKind mode)
    { choices := choices
      selectedRouteId :=
        (defaultChoice.map (fun c => c.id)).orElse
          fun _ => choices.head?.map fun c => c.id
      error := none }

/-- The (kind, response) pairs of one request in request order, for a
fixed per-variant outcome assignment `resp`. -/
def pairsOf (mode : TravelMode) (resp : RouteVariantKind → RouteResponse) :
    List (RouteVariantKind × RouteResponse) :=
  (variantsFor mode).zip ((variantsFor mode).map resp)

/-- The `okRoutes` list of a request with outcome assignment `resp`. -/
def okListOf (mode : TravelMode) (resp : RouteVariantKind → RouteResponse) :
    List OkEntry :=
  okEntries (pairsOf mode resp)

/-- Aggregation of handleRoute for a fixed per-variant outcome
assignment: `Promise.all` hands the responses over in request order. -/
def routeAgg (mode : TravelMode) (resp : RouteVariantKind → RouteResponse) :
    RouteAggregate :=
  aggregateRoutes mode ((variantsFor mode).map resp)

/-! ## The `Promise.all` join

`handleRoute` dispatches all variant requests before awaiting any
(App.tsx line 312).  `Promise.all` stores each settled response in the
slot of its request index, whatever the completion order; a completion
order is modelled as a list of request indices. -/

/-- Store the response of request `i` in slot `i`. -/
def settleStep {n : ℕ} (resp : Fin n → RouteResponse)
    (slots : List (Option RouteResponse)) (i : Fin n) :
    List (Option RouteResponse) :=
  slots.set i (some (resp i))

/-- Settle the requests in completion order `order`, starting from all
slots pending. -/
def settleAll {n : ℕ} (resp : Fin n → RouteResponse) (order : List (Fin n)) :
    List (Option RouteResponse) :=
  order.foldl (settleStep resp) (List.replicate n none)

/-- The aggregation result when the per-variant requests complete in the
given order: the `Promise.all` join re-reads the slots by request
index. -/
def aggregateArrived (mode : TravelMode)
    (resp : Fin (variantsFor mode).length → RouteResponse)
    (order : List (Fin (variantsFor mode).length)) : RouteAggregate :=
  aggregateRoutes mode (settleAll resp order).reduceOption

/-! ## The interactive app state machine

State fields mirror the `useState`/`useRef` fields of `App.tsx`; the
raw coordinate input strings (`startLat`, …, `hazardLat`, …) are
abstracted to the parsed values produced by `parseNumber`, and fields of
pure presentation (`loading`, `geocoding`, `geoStatus`, hazard-report
form state) are not modelled.  Asynchronous completions — a settled
route request, a reverse-geocode answer, a settled marker fetch, a
device-location fix — are separate events supplied by the environment.

The marker-refresh effect (App.tsx lines 549-569) re-runs whenever
`mapBounds` or `routeChoices` change identity; its cleanup sets the
`cancelled` flag of the previous run's fetch.  In the model every
in-flight marker fetch carries the `cancelled` flag, and `epoch` is a
ghost counter incremented on every bounds change and every new route
computation, used only to state staleness. -/

/-- Type LatLon of types.ts. -/
structure LatLon where
  lat : ℚ
  lon : ℚ
deriving DecidableEq, Repr

/-- Type MarkerBounds of App.tsx lines 60-65. -/
structure MarkerBounds where
  minLat : ℚ
  maxLat : ℚ
  minLon : ℚ
  maxLon : ℚ
deriving DecidableEq, Repr

/-- A hazard marker as stored in `RouteMarkers` (only the coordinates
matter to the modelled state). -/
structure HazardMarker where
  lat : ℚ
  lon : ℚ
deriving DecidableEq, Repr

/-- One in-flight `fetchRouteMarkers` call: its bounds, the route-choice
ids captured at dispatch, whether it is the guarded effect fetch
(App.tsx lines 549-569) or the unguarded direct fetch of `handleRoute`
(lines 379-388), its `cancelled` flag, and the ghost dispatch epoch. -/
structure MarkerFetch where
  bounds : MarkerBounds
  ids : List String
  guarded : Bool
  cancelled : Bool
  epoch : ℕ
deriving DecidableEq, Repr

/-- Predicate isValidLat of App.tsx line 18. -/
def isValidLat (v : ℚ) : Bool := decide (-90 ≤ v ∧ v ≤ 90)

/-- Predicate isValidLon of App.tsx line 19. -/
def isValidLon (v : ℚ) : Bool := decide (-180 ≤ v ∧ v ≤ 180)

/-- Predicate isSameLocation of App.tsx lines 22-23 at the default
`epsilon = 1e-6`. -/
def isSameLocation (a b : LatLon) : Bool :=
  decide (|a.lat - b.lat| < 1 / 1000000 ∧ |a.lon - b.lon| < 1 / 1000000)

/-- The two assignable points, the `kind` argument of
`applyGeocodeResult` (App.tsx line 213); `destination` renders `end`. -/
inductive PointTarget
  | start
  | destination
deriving DecidableEq, Repr

/-- The modelled component state of `App` (App.tsx lines 68-104).
`endPoint` renders the `end` state (a Lean keyword); `pendingReverse`
holds the coordinates captured by in-flight `reverseGeocode` calls;
`pendingGeocode` holds the targets of in-flight `geocodePlace` calls
(the `kind` each suspended `handlePlaceSearch` captured before its
`await`); `epoch` and `inflight` model the marker-fetch machinery. -/
structure AppState where
  start : Option LatLon
  endPoint : Option LatLon
  travelMode : TravelMode
  startPlace : String
  endPlace : String
  routeChoices : List RouteChoice
  selectedRouteId : Option String
  routeMarkers : List (String × List HazardMarker)
  mapBounds : Option MarkerBounds
  error : Option String
  deviceLocation : Option LatLon
  hazardPickMode : Bool
  hazardLocation : Option LatLon
  hasDefaultedStart : Bool
  pendingReverse : List LatLon
  pendingGeocode : List PointTarget
  epoch : ℕ
  inflight : List MarkerFetch
deriving DecidableEq, Repr

/-- The initial component state. -/
def initState : AppState :=
  { start := none
    endPoint := none
    travelMode := .WALK
    startPlace := ""
    endPlace := ""
    routeChoices := []
    selectedRouteId := none
    routeMarkers := []
    mapBounds := none
    error := none
    deviceLocation := none
    hazardPickMode := false
    hazardLocation := none
    hasDefaultedStart := false
    pendingReverse := []
    pendingGeocode := []
    epoch := 0
    inflight := [] }

/-- Mark every guarded (effect) fetch cancelled: the cleanup of the
marker-refresh effect runs whenever its `[mapBounds, routeChoices]`
dependencies change identity. -/
def cancelGuarded (fs : List MarkerFetch) : List MarkerFetch :=
  fs.map fun f => if f.guarded then { f with cancelled := true } else f

/-- Function clearRouteState of App.tsx lines 178-183.  Setting `routeChoices`
to a fresh empty array changes the effect dependency, so the previous
effect fetch is cancelled; with no route choices the re-run effect
dispatches nothing. -/
def clearRouteState (s : AppState) : AppState :=
  { s with routeChoices := []
           selectedRouteId := none
           routeMarkers := []
           error := none
           inflight := cancelGuarded s.inflight }

/-- Body of the marker-refresh effect (App.tsx lines 549-569): no fetch
when the bounds are unknown or there are no route choices, else one
guarded fetch capturing the current route-choice ids. -/
def dispatchEffectFetch (s : AppState) : AppState :=
  match s.mapBounds with
  | none => s
  | some b =>
      if s.routeChoices = [] then s
      else
        { s with inflight := s.inflight ++
            [{ bounds := b
               ids := s.routeChoices.map fun c => c.id
               guarded := true
               cancelled := false
               epoch := s.epoch }] }

/-- Handler handleMapClick of App.tsx lines 255-285 (the normal-mode click). -/
def normalMapClick (s : AppState) (p : LatLon) : AppState :=
  let s := clearRouteState s
  match s.start, s.endPoint with
  | none, _ => { s with start := some p, startPlace := "" }
  | some _, none => { s with endPoint := some p, endPlace := "" }
  | some _, some _ =>
      { s with start := some p, endPoint := none,
               startPlace := "", endPlace := "" }

/-- Result of a `geocodePlace` call (`api/geocode.ts` boundary). -/
inductive GeocodeOutcome
  | ok (lat lon : ℚ) (label : String)
  | err (message : String)
deriving DecidableEq, Repr

/-- Function applyGeocodeResult of App.tsx lines 213-229 (the formatted
coordinate text fields are not modelled). -/
def applyGeocodeResult (s : AppState) (t : PointTarget) (p : LatLon)
    (label : String) : AppState :=
  match t with
  | .start => { s with start := some p, startPlace := label }
  | .destination => { s with endPoint := some p, endPlace := label }

/-- The events driving the component, combining user interactions with
asynchronous completions.  `setStartInputs`/`setEndInputs` carry the
`parseNumber` results of the edited fields; `placeSearchStart` is the
synchronous part of `handlePlaceSearch` up to the `await geocodePlace`
suspension (App.tsx line 240) and `geocodeDone` is its continuation with
the geocoder's answer, so other events may land in between; `route` is
the whole `handleRoute` run with the settled variant responses;
`reverseDone` and `completeMarkerFetch` settle the correspondingly
indexed in-flight call. -/
inductive Action
  | mapClick (lat lon : ℚ)
  | setStartInputs (latVal lonVal : Option ℚ)
  | setEndInputs (latVal lonVal : Option ℚ)
  | placeSearchStart (t : PointTarget) (queryEmpty : Bool)
  | geocodeDone (i : ℕ) (res : GeocodeOutcome)
  | route (responses : List RouteResponse)
  | selectRoute (i : ℕ)
  | toggleHazardPick
  | clearHazardLocation
  | clearAll
  | setTravelMode (m : TravelMode)
  | boundsChange (b : MarkerBounds)
  | deviceFix (lat lon : ℚ)
  | deviceFixFail
  | reverseDone (i : ℕ) (res : Option String)
  | completeMarkerFetch (i : ℕ) (res : Option (List HazardMarker))
deriving DecidableEq, Repr

/-- Handler updateStartFromInputs of App.tsx lines 185-197 on the parsed
field values. -/
def stepSetStartInputs (s : AppState) (latVal lonVal : Option ℚ) : AppState :=
  let s :=
    match latVal, lonVal with
    | some la, some lo =>
        if isValidLat la && isValidLon lo then { s with start := some ⟨la, lo⟩ }
        else { s with start := none }
    | _, _ => { s with start := none }
  clearRouteState { s with startPlace := "" }

/-- Handler updateEndFromInputs of App.tsx lines 199-211. -/
def stepSetEndInputs (s : AppState) (latVal lonVal : Option ℚ) : AppState :=
  let s :=
    match latVal, lonVal with
    | some la, some lo =>
        if isValidLat la && isValidLon lo then { s with endPoint := some ⟨la, lo⟩ }
        else { s with endPoint := none }
    | _, _ => { s with endPoint := none }
  clearRouteState { s with endPlace := "" }

/-- The synchronous prefix of `handlePlaceSearch` (App.tsx
lines 231-240): reject an empty query, otherwise clear the derived
route state and dispatch the geocode, recording the captured target. -/
def stepPlaceSearchStart (s : AppState) (t : PointTarget)
    (queryEmpty : Bool) : AppState :=
  if queryEmpty then { s with error := some "Please enter a place name." }
  else clearRouteState { s with pendingGeocode := s.pendingGeocode ++ [t] }

/-- The continuation of `handlePlaceSearch` after `await geocodePlace`
(App.tsx lines 241-252): validate and apply the geocoder's answer to the
target captured at dispatch.  Note there is no staleness guard and no
second clearing here: the assignment applies to whatever state the
component has reached meanwhile. -/
def stepGeocodeDone (s : AppState) (i : ℕ) (res : GeocodeOutcome) : AppState :=
  match s.pendingGeocode[i]? with
  | none => s
  | some t =>
      let s' := { s with pendingGeocode := s.pendingGeocode.eraseIdx i }
      match res with
      | .ok lat lon label =>
          if isValidLat lat && isValidLon lon then
            applyGeocodeResult s' t ⟨lat, lon⟩ label
          else { s' with error := some "Geocoder returned out-of-range coordinates." }
      | .err m => { s' with error := some m }

/-- Handler handleRoute of App.tsx lines 287-389 run to completion: clearing,
validation, aggregation of the settled responses, then the unguarded
direct marker fetch (lines 379-388) and the re-run of the marker-refresh
effect triggered by the changed `routeChoices`. -/
def stepRoute (s : AppState) (responses : List RouteResponse) : AppState :=
  let s := clearRouteState s
  match s.start, s.endPoint with
  | some st, some en =>
      if isValidLat st.lat && isValidLon st.lon &&
          isValidLat en.lat && isValidLon en.lon then
        let agg := aggregateRoutes s.travelMode responses
        match agg.error with
        | some msg => { s with error := some msg }
        | none =>
            let s := { s with routeChoices := agg.choices
                              selectedRouteId := agg.selectedRouteId
                              epoch := s.epoch + 1 }
            let s :=
              match s.mapBounds with
              | some b =>
                  { s with inflight := s.inflight ++
                      [{ bounds := b
                         ids := agg.choices.map fun c => c.id
                         guarded := false
                         cancelled := false
                         epoch := s.epoch }] }
              | none => s
            dispatchEffectFetch s
      else { s with error := some "Coordinates are out of range." }
  | _, _ => { s with error := some "Please set both a start and end location." }

/-- The success callback of `requestDeviceLocation`
(App.tsx lines 122-151): record the device location and, when the latch
is unconsumed and start is unset, default the start and dispatch the
reverse geocode, capturing the defaulted coordinate. -/
def stepDeviceFix (s : AppState) (p : LatLon) : AppState :=
  let s := { s with deviceLocation := some p }
  if !s.hasDefaultedStart && s.start = none then
    { s with start := some p
             startPlace := "Current location"
             hasDefaultedStart := true
             pendingReverse := s.pendingReverse ++ [p] }
  else s

/-- The `reverseGeocode` continuation of App.tsx lines 142-150: apply
the label only on success and only when the current start still equals
the captured coordinate up to `isSameLocation`. -/
def stepReverseDone (s : AppState) (i : ℕ) (res : Option String) : AppState :=
  match s.pendingReverse[i]? with
  | none => s
  | some captured =>
      let s' := { s with pendingReverse := s.pendingReverse.eraseIdx i }
      match res with
      | none => s'
      | some label =>
          match s'.start with
          | some st =>
              if isSameLocation st captured then { s' with startPlace := label }
              else s'
          | none => s'

/-- Settling in-flight marker fetch `i` (App.tsx lines 380-387 for the
direct fetch, lines 554-564 for the guarded effect fetch): a cancelled
guarded fetch or an error response mutates nothing; otherwise the one
returned marker list is broadcast to the ids captured at dispatch. -/
def stepCompleteFetch (s : AppState) (i : ℕ)
    (res : Option (List HazardMarker)) : AppState :=
  match s.inflight[i]? with
  | none => s
  | some f =>
      let s' := { s with inflight := s.inflight.eraseIdx i }
      match res with
      | none => s'
      | some markers =>
          if f.guarded && f.cancelled then s'
          else { s' with routeMarkers := f.ids.map fun id => (id, markers) }

/-- One transition of the component. -/
def step (a : Action) (s : AppState) : AppState :=
  match a with
  | .mapClick lat lon =>
      -- MapView.tsx `MapEventHandler` click dispatch (part_001 lines
      -- 41-49) with App's `onHazardPick` (App.tsx lines 924-931).
      if s.hazardPickMode then
        { s with hazardPickMode := false, hazardLocation := some ⟨lat, lon⟩ }
      else normalMapClick s ⟨lat, lon⟩
  | .setStartInputs latVal lonVal => stepSetStartInputs s latVal lonVal
  | .setEndInputs latVal lonVal => stepSetEndInputs s latVal lonVal
  | .placeSearchStart t queryEmpty => stepPlaceSearchStart s t queryEmpty
  | .geocodeDone i res => stepGeocodeDone s i res
  | .route responses => stepRoute s responses
  | .selectRoute i =>
      -- route-option button / polyline click (App.tsx lines 736, 920).
      match s.routeChoices[i]? with
      | some c => { s with selectedRouteId := some c.id }
      | none => s
  | .toggleHazardPick =>
      -- App.tsx line 860.
      { s with hazardPickMode := !s.hazardPickMode }
  | .clearHazardLocation =>
      -- App.tsx lines 869-874.
      { s with hazardLocation := none, hazardPickMode := false }
  | .clearAll =>
      -- `handleClear`, App.tsx lines 470-484.
      clearRouteState
        { s with start := none, endPoint := none,
                 startPlace := "", endPlace := "" }
  | .setTravelMode m =>
      -- mode toggle buttons, App.tsx lines 595-612.
      if s.travelMode = m then s
      else clearRouteState { s with travelMode := m }
  | .boundsChange b =>
      -- `handleBoundsChange` (App.tsx lines 577-579) plus the re-run of
      -- the marker-refresh effect on the changed `mapBounds`.
      dispatchEffectFetch
        { s with mapBounds := some b
                 epoch := s.epoch + 1
                 inflight := cancelGuarded s.inflight }
  | .deviceFix lat lon => stepDeviceFix s ⟨lat, lon⟩
  | .deviceFixFail =>
      -- the error callback of `requestDeviceLocation` (lines 153-165).
      { s with deviceLocation := none }
  | .reverseDone i res => stepReverseDone s i res
  | .completeMarkerFetch i res => stepCompleteFetch s i res

/-- Run a sequence of events from a state. -/
def runActs (acts : List Action) (s : AppState) : AppState :=
  acts.foldl (fun s a => step a s) s

/-! ## Request-order response lists -/

theorem pairsOf_eq_map (mode : TravelMode) (resp : RouteVariantKind → RouteResponse) :
    pairsOf mode resp = (variantsFor mode).map fun k => (k, resp k) := by
  cases mode <;> rfl

theorem okListOf_eq_filterMap (mode : TravelMode)
    (resp : RouteVariantKind → RouteResponse) :
    okListOf mode resp = (variantsFor mode).filterMap fun k =>
      match resp k with
      | .ok r => some ⟨k, r⟩
      | .noRoute _ => none
      | .error _ _ => none := by
  rw [okListOf, okEntries, pairsOf_eq_map, List.filterMap_map]
  rfl

theorem kinds_okListOf_sublist (mode : TravelMode)
    (resp : RouteVariantKind → RouteResponse) :
    ((okListOf mode resp).map OkEntry.kind).Sublist (variantsFor mode) := by
  rw [okListOf_eq_filterMap]
  generalize variantsFor mode = l
  induction l with
  | nil => simp
  | cons k rest ih =>
      rw [List.filterMap_cons]
      cases h : resp k with
      | ok r => simpa using List.Sublist.cons₂ k ih
      | noRoute m => exact ih.cons k
      | error m st => exact ih.cons k

theorem variantsFor_nodup (mode : TravelMode) : (variantsFor mode).Nodup := by
  cases mode <;> decide

theorem kinds_okListOf_nodup (mode : TravelMode)
    (resp : RouteVariantKind → RouteResponse) :
    ((okListOf mode resp).map OkEntry.kind).Nodup :=
  (kinds_okListOf_sublist mode resp).nodup (variantsFor_nodup mode)

theorem mem_okListOf_of_ok (mode : TravelMode)
    (resp : RouteVariantKind → RouteResponse) (k : RouteVariantKind)
    (r : RouteResult) (hk : k ∈ variantsFor mode) (hr : resp k = .ok r) :
    (⟨k, r⟩ : OkEntry) ∈ okListOf mode resp := by
  rw [okListOf_eq_filterMap, List.mem_filterMap]
  exact ⟨k, hk, by rw [hr]⟩

theorem of_mem_okListOf (mode : TravelMode)
    (resp : RouteVariantKind → RouteResponse) (e : OkEntry)
    (he : e ∈ okListOf mode resp) :
    e.kind ∈ variantsFor mode ∧ resp e.kind = .ok e.result := by
  rw [okListOf_eq_filterMap, List.mem_filterMap] at he
  obtain ⟨k, hk, hke⟩ := he
  cases h : resp k with
  | ok r =>
      rw [h] at hke
      cases hke
      exact ⟨hk, h⟩
  | noRoute m => rw [h] at hke; cases hke
  | error m st => rw [h] at hke; cases hke

theorem okListOf_eq_nil_iff (mode : TravelMode)
    (resp : RouteVariantKind → RouteResponse) :
    okListOf mode resp = [] ↔
      ∀ k ∈ variantsFor mode, ∀ r, resp k ≠ .ok r := by
  constructor
  · intro h k hk r hr
    have := mem_okListOf_of_ok mode resp k r hk hr
    rw [h] at this
    exact absurd this (List.not_mem_nil _)
  · intro h
    cases hl : okListOf mode resp with
    | nil => rfl
    | cons e rest =>
        have he : e ∈ okListOf mode resp := by rw [hl]; exact List.mem_cons_self _ _
        obtain ⟨hk, hr⟩ := of_mem_okListOf mode resp e he
        exact absurd hr (h e.kind hk e.result)

theorem failMessages_of_all_fail
    (pairs : List (RouteVariantKind × RouteResponse))
    (h : ∀ p ∈ pairs, ∀ r, p.2 ≠ RouteResponse.ok r) :
    failMessages pairs = pairs.map fun p => failMessage p.1 p.2 := by
  induction pairs with
  | nil => rfl
  | cons p rest ih =>
      rw [failMessages, List.filterMap_cons, List.map_cons]
      cases hp : p.2 with
      | ok r => exact absurd hp (h p (List.mem_cons_self _ _) r)
      | noRoute m =>
          rw [← failMessages]
          rw [ih fun q hq => h q (List.mem_cons_of_mem _ hq)]
      | error m st =>
          rw [← failMessages]
          rw [ih fun q hq => h q (List.mem_cons_of_mem _ hq)]

/-! ## The grouping invariant

`GroupsSpec l gs` records what the `consolidated` Map of App.tsx
lines 339-349 guarantees after processing the entries `l`: every group
holds exactly the kinds of the entries sharing its coordinate key, in
request order; every group stores the result of the first entry with its
key; distinct groups have distinct keys; every entry has a group. -/

def GroupsSpec (l : List OkEntry) (gs : List RouteGroup) : Prop :=
  (∀ g ∈ gs, g.kinds =
      (l.filter fun x => decide (x.result.coordinates = g.result.coordinates)).map
        OkEntry.kind) ∧
  (∀ g ∈ gs, ∃ e,
      l.find? (fun x => decide (x.result.coordinates = g.result.coordinates)) = some e ∧
      e.result = g.result) ∧
  List.Pairwise (fun g₁ g₂ => g₁.result.coordinates ≠ g₂.result.coordinates) gs ∧
  (∀ e ∈ l, ∃ g ∈ gs, g.result.coordinates = e.result.coordinates)

theorem insertOk_of_no_match (gs : List RouteGroup) (e : OkEntry)
    (h : ∀ g ∈ gs, g.result.coordinates ≠ e.result.coordinates) :
    insertOk gs e = gs ++ [⟨[e.kind], e.result⟩] := by
  induction gs with
  | nil => rfl
  | cons g rest ih =>
      rw [insertOk, if_neg (h g (List.mem_cons_self _ _)),
        ih fun g' hg' => h g' (List.mem_cons_of_mem _ hg')]
      rfl

theorem insertOk_of_match (gs₁ gs₂ : List RouteGroup) (g : RouteGroup)
    (e : OkEntry) (h₁ : ∀ g' ∈ gs₁, g'.result.coordinates ≠ e.result.coordinates)
    (hg : g.result.coordinates = e.result.coordinates) :
    insertOk (gs₁ ++ g :: gs₂) e =
      gs₁ ++ ⟨g.kinds ++ [e.kind], g.result⟩ :: gs₂ := by
  induction gs₁ with
  | nil => simp [insertOk, hg]
  | cons g' rest ih =>
      rw [List.cons_append, insertOk, if_neg (h₁ g' (List.mem_cons_self _ _)),
        ih fun x hx => h₁ x (List.mem_cons_of_mem _ hx)]
      rfl

theorem find?_append_left {α : Type} (p : α → Bool) (l₁ l₂ : List α) (x : α)
    (h : l₁.find? p = some x) : (l₁ ++ l₂).find? p = some x := by
  induction l₁ with
  | nil => cases h
  | cons a rest ih =>
      rw [List.cons_append, List.find?]
      rw [List.find?] at h
      cases hp : p a with
      | true => rw [hp] at h; simpa [hp] using h
      | false => rw [hp] at h; simpa [hp] using ih h

theorem find?_append_right {α : Type} (p : α → Bool) (l₁ l₂ : List α)
    (h : l₁.find? p = none) : (l₁ ++ l₂).find? p = l₂.find? p := by
  induction l₁ with
  | nil => rfl
  | cons a rest ih =>
      rw [List.find?] at h
      cases hp : p a with
      | true => rw [hp] at h; cases h
      | false =>
          rw [hp] at h
          rw [List.cons_append, List.find?, hp]
          exact ih h

theorem groupsSpec_nil : GroupsSpec [] [] := by
  refine ⟨?_, ?_, List.Pairwise.nil, ?_⟩ <;> simp

theorem groupsSpec_insert (l : List OkEntry) (gs : List RouteGroup) (e : OkEntry)
    (h : GroupsSpec l gs) : GroupsSpec (l ++ [e]) (insertOk gs e) := by
  obtain ⟨hKinds, hFirst, hPair, hCover⟩ := h
  by_cases hmatch : ∃ g ∈ gs, g.result.coordinates = e.result.coordinates
  · -- some group already holds this coordinate key
    obtain ⟨g, hg, hgkey⟩ := hmatch
    obtain ⟨gs₁, gs₂, rfl⟩ := List.append_of_mem hg
    have hPair₁ : ∀ g' ∈ gs₁, g'.result.coordinates ≠ e.result.coordinates := by
      intro g' hg'
      have := (List.pairwise_append.mp hPair).2.2 g' hg' g (List.mem_cons_self _ _)
      rw [← hgkey]
      exact this
    have hPair₂ : ∀ g' ∈ gs₂, g'.result.coordinates ≠ e.result.coordinates := by
      intro g' hg'
      have := (List.pairwise_cons.mp (List.pairwise_append.mp hPair).2.1).1 g' hg'
      rw [← hgkey]
      exact fun hc => this hc.symm
    rw [insertOk_of_match gs₁ gs₂ g e hPair₁ hgkey]
    refine ⟨?_, ?_, ?_, ?_⟩
    · intro g' hg'
      rcases List.mem_append.mp hg' with hmem | hmem
      · have hne := hPair₁ g' hmem
        rw [List.filter_append,
          show List.filter
            (fun x => decide (x.result.coordinates = g'.result.coordinates)) [e] = []
            by simp [Ne.symm hne],
          List.append_nil]
        exact hKinds g' (List.mem_append_left _ hmem)
      · rcases List.mem_cons.mp hmem with rfl | hmem
        · rw [List.filter_append,
            show List.filter (fun x => decide (x.result.coordinates =
              (RouteGroup.mk (g.kinds ++ [e.kind]) g.result).result.coordinates)) [e] = [e]
              by simp [hgkey.symm],
            List.map_append]
          have hbase := hKinds g (List.mem_append_right _ (List.mem_cons_self _ _))
          show g.kinds ++ [e.kind] = _
          rw [← hbase]
          rfl
        · have hne := hPair₂ g' hmem
          rw [List.filter_append,
            show List.filter
              (fun x => decide (x.result.coordinates = g'.result.coordinates)) [e] = []
              by simp [Ne.symm hne],
            List.append_nil]
          exact hKinds g'
            (List.mem_append_right _ (List.mem_cons_of_mem _ hmem))
    · intro g' hg'
      rcases List.mem_append.mp hg' with hmem | hmem
      · obtain ⟨x, hx, hxres⟩ := hFirst g' (List.mem_append_left _ hmem)
        exact ⟨x, find?_append_left _ _ _ _ hx, hxres⟩
      · rcases List.mem_cons.mp hmem with rfl | hmem
        · obtain ⟨x, hx, hxres⟩ :=
            hFirst g (List.mem_append_right _ (List.mem_cons_self _ _))
          exact ⟨x, find?_append_left _ _ _ _ hx, hxres⟩
        · obtain ⟨x, hx, hxres⟩ := hFirst g'
            (List.mem_append_right _ (List.mem_cons_of_mem _ hmem))
          exact ⟨x, find?_append_left _ _ _ _ hx, hxres⟩
    · rw [List.pairwise_append] at hPair ⊢
      obtain ⟨hp₁, hp₂, hcross⟩ := hPair
      rw [List.pairwise_cons] at hp₂
      refine ⟨hp₁, ?_, ?_⟩
      · rw [List.pairwise_cons]
        exact ⟨fun g' hg' => hp₂.1 g' hg', hp₂.2⟩
      · intro a ha b hb
        rcases List.mem_cons.mp hb with rfl | hb
        · exact hcross a ha g (List.mem_cons_self _ _)
        · exact hcross a ha b (List.mem_cons_of_mem _ hb)
    · intro x hx
      rcases List.mem_append.mp hx with hmem | hmem
      · obtain ⟨g', hg', hkey⟩ := hCover x hmem
        rcases List.mem_append.mp hg' with h₁ | h₂
        · exact ⟨g', List.mem_append_left _ h₁, hkey⟩
        · rcases List.mem_cons.mp h₂ with rfl | h₂
          · exact ⟨_, List.mem_append_right _ (List.mem_cons_self _ _), hkey⟩
          · exact ⟨g', List.mem_append_right _ (List.mem_cons_of_mem _ h₂), hkey⟩
      · rcases List.mem_singleton.mp hmem with rfl
        exact ⟨_, List.mem_append_right _ (List.mem_cons_self _ _), hgkey⟩
  · -- no group holds this key: a new group is appended
    push_neg at hmatch
    rw [insertOk_of_no_match gs e hmatch]
    have hfl : l.filter
        (fun x => decide (x.result.coordinates = e.result.coordinates)) = [] := by
      rw [List.filter_eq_nil_iff]
      intro x hx
      obtain ⟨g', hg', hkey⟩ := hCover x hx
      simpa using fun hc => hmatch g' hg' (hkey.trans hc)
    have hnone : l.find?
        (fun x => decide (x.result.coordinates = e.result.coordinates)) = none := by
      rw [List.find?_eq_none]
      intro x hx
      obtain ⟨g', hg', hkey⟩ := hCover x hx
      simpa using fun hc => hmatch g' hg' (hkey.trans hc)
    refine ⟨?_, ?_, ?_, ?_⟩
    · intro g' hg'
      rcases List.mem_append.mp hg' with hmem | hmem
      · have hne : g'.result.coordinates ≠ e.result.coordinates := hmatch g' hmem
        rw [List.filter_append,
          show List.filter
            (fun x => decide (x.result.coordinates = g'.result.coordinates)) [e] = []
            by simp [Ne.symm hne],
          List.append_nil]
        exact hKinds g' hmem
      · rcases List.mem_singleton.mp hmem with rfl
        show [e.kind] = List.map OkEntry.kind
          (List.filter (fun x =>
            decide (x.result.coordinates = e.result.coordinates)) (l ++ [e]))
        rw [List.filter_append, hfl, List.nil_append]
        simp
    · intro g' hg'
      rcases List.mem_append.mp hg' with hmem | hmem
      · obtain ⟨x, hx, hxres⟩ := hFirst g' hmem
        exact ⟨x, find?_append_left _ _ _ _ hx, hxres⟩
      · rcases List.mem_singleton.mp hmem with rfl
        refine ⟨e, ?_, rfl⟩
        show List.find? (fun x =>
          decide (x.result.coordinates = e.result.coordinates)) (l ++ [e]) = some e
        rw [find?_append_right _ _ _ hnone]
        simp [List.find?]
    · rw [List.pairwise_append]
      refine ⟨hPair, List.pairwise_singleton _ _, ?_⟩
      intro g' hg' gn hgn
      rcases List.mem_singleton.mp hgn with rfl
      exact fun hc => hmatch g' hg' hc
    · intro x hx
      rcases List.mem_append.mp hx with hmem | hmem
      · obtain ⟨g', hg', hkey⟩ := hCover x hmem
        exact ⟨g', List.mem_append_left _ hg', hkey⟩
      · rcases List.mem_singleton.mp hmem with rfl
        exact ⟨_, List.mem_append_right _ (List.mem_singleton_self _), rfl⟩

theorem groupsSpec_buildGroups (l : List OkEntry) :
    GroupsSpec l (buildGroups l) := by
  induction l using List.reverseRecOn with
  | nil => exact groupsSpec_nil
  | append_singleton rest e ih =>
      rw [buildGroups, List.foldl_append]
      exact groupsSpec_insert rest (buildGroups rest) e ih

theorem buildGroups_kinds (l : List OkEntry) (g : RouteGroup)
    (hg : g ∈ buildGroups l) :
    g.kinds = (l.filter fun x =>
      decide (x.result.coordinates = g.result.coordinates)).map OkEntry.kind :=
  (groupsSpec_buildGroups l).1 g hg

theorem buildGroups_first_result (l : List OkEntry) (g : RouteGroup)
    (hg : g ∈ buildGroups l) :
    ∃ e, l.find? (fun x =>
        decide (x.result.coordinates = g.result.coordinates)) = some e ∧
      e.result = g.result :=
  (groupsSpec_buildGroups l).2.1 g hg

theorem buildGroups_keys_pairwise (l : List OkEntry) :
    List.Pairwise (fun g₁ g₂ =>
      g₁.result.coordinates ≠ g₂.result.coordinates) (buildGroups l) :=
  (groupsSpec_buildGroups l).2.2.1

theorem buildGroups_cover (l : List OkEntry) (e : OkEntry) (he : e ∈ l) :
    ∃ g ∈ buildGroups l, g.result.coordinates = e.result.coordinates :=
  (groupsSpec_buildGroups l).2.2.2 e he

theorem mem_kinds_buildGroups_iff (l : List OkEntry) (g : RouteGroup)
    (hg : g ∈ buildGroups l) (k : RouteVariantKind) :
    k ∈ g.kinds ↔ ∃ r : RouteResult,
      (⟨k, r⟩ : OkEntry) ∈ l ∧ r.coordinates = g.result.coordinates := by
  rw [buildGroups_kinds l g hg]
  constructor
  · intro hk
    obtain ⟨x, hx, hxk⟩ := List.mem_map.mp hk
    obtain ⟨hxl, hxc⟩ := List.mem_filter.mp hx
    refine ⟨x.result, ?_, by simpa using hxc⟩
    have : x = ⟨k, x.result⟩ := by cases x; cases hxk; rfl
    rw [← this]
    exact hxl
  · rintro ⟨r, hrl, hrc⟩
    exact List.mem_map.mpr ⟨⟨k, r⟩, List.mem_filter.mpr ⟨hrl, by simpa using hrc⟩, rfl⟩

theorem mem_filter_of_find? {α : Type} (p : α → Bool) (l : List α) (x : α)
    (h : l.find? p = some x) : x ∈ l.filter p := by
  induction l with
  | nil => cases h
  | cons a rest ih =>
      rw [List.find?] at h
      cases hp : p a with
      | true =>
          rw [hp] at h
          cases h
          simp [List.filter_cons, hp]
      | false =>
          rw [hp] at h
          simpa [List.filter_cons, hp] using ih h

theorem buildGroups_kinds_ne_nil (l : List OkEntry) (g : RouteGroup)
    (hg : g ∈ buildGroups l) : g.kinds ≠ [] := by
  obtain ⟨e, he, heres⟩ := buildGroups_first_result l g hg
  have hmem := mem_filter_of_find? _ _ _ he
  rw [buildGroups_kinds l g hg]
  intro hnil
  rw [List.map_eq_nil_iff] at hnil
  rw [hnil] at hmem
  exact List.not_mem_nil _ hmem

/-! ## The stable sort of App.tsx lines 367-371 -/

theorem insertRanked_perm (mode : TravelMode) (c : RouteChoice)
    (l : List RouteChoice) : List.Perm (insertRanked mode c l) (c :: l) := by
  induction l with
  | nil => rfl
  | cons d rest ih =>
      rw [insertRanked]
      by_cases h : choiceRank mode c ≤ choiceRank mode d
      · rw [if_pos h]
      · rw [if_neg h]
        exact (ih.cons d).trans (List.Perm.swap c d rest)

theorem sortRanked_perm (mode : TravelMode) (l : List RouteChoice) :
    List.Perm (sortRanked mode l) l := by
  induction l with
  | nil => rfl
  | cons c rest ih =>
      rw [sortRanked]
      exact (insertRanked_perm mode c (sortRanked mode rest)).trans (ih.cons c)

theorem mem_sortRanked (mode : TravelMode) (c : RouteChoice)
    (l : List RouteChoice) : c ∈ sortRanked mode l ↔ c ∈ l :=
  (sortRanked_perm mode l).mem_iff

theorem insertRanked_sorted (mode : TravelMode) (c : RouteChoice)
    (l : List RouteChoice)
    (h : List.Pairwise (fun a b => choiceRank mode a ≤ choiceRank mode b) l) :
    List.Pairwise (fun a b => choiceRank mode a ≤ choiceRank mode b)
      (insertRanked mode c l) := by
  induction l with
  | nil => exact List.pairwise_singleton _ _
  | cons d rest ih =>
      rw [List.pairwise_cons] at h
      rw [insertRanked]
      by_cases hcd : choiceRank mode c ≤ choiceRank mode d
      · rw [if_pos hcd, List.pairwise_cons]
        refine ⟨?_, List.pairwise_cons.mpr h⟩
        intro x hx
        rcases List.mem_cons.mp hx with rfl | hx
        · exact hcd
        · exact hcd.trans (h.1 x hx)
      · rw [if_neg hcd, List.pairwise_cons]
        refine ⟨?_, ih h.2⟩
        intro x hx
        rcases (insertRanked_perm mode c rest).mem_iff.mp hx with hx'
        rcases List.mem_cons.mp hx' with rfl | hx'
        · exact le_of_not_le hcd
        · exact h.1 x hx'

theorem sortRanked_sorted (mode : TravelMode) (l : List RouteChoice) :
    List.Pairwise (fun a b => choiceRank mode a ≤ choiceRank mode b)
      (sortRanked mode l) := by
  induction l with
  | nil => exact List.Pairwise.nil
  | cons c rest ih => exact insertRanked_sorted mode c _ ih

/-! ## Unfolding the aggregation -/

theorem routeAgg_of_all_fail (mode : TravelMode)
    (resp : RouteVariantKind → RouteResponse)
    (h : okListOf mode resp = []) :
    routeAgg mode resp =
      { choices := []
        selectedRouteId := none
        error := some ((failMessages (pairsOf mode resp)).headD "No route found.") } := by
  rw [routeAgg, aggregateRoutes]
  have hok : okEntries ((variantsFor mode).zip ((variantsFor mode).map resp)) =
      okListOf mode resp := rfl
  rw [hok, if_pos h]
  rfl

theorem routeAgg_of_some_ok (mode : TravelMode)
    (resp : RouteVariantKind → RouteResponse)
    (h : okListOf mode resp ≠ []) :
    routeAgg mode resp =
      (let choices :=
        sortRanked mode ((buildGroups (okListOf mode resp)).map (mkChoice mode))
      { choices := choices
        selectedRouteId :=
          ((choices.find? fun c =>
            c.kinds.contains (preferredKind mode)).map (fun c => c.id)).orElse
            fun _ => choices.head?.map fun c => c.id
        error := none }) := by
  rw [routeAgg, aggregateRoutes]
  have hok : okEntries ((variantsFor mode).zip ((variantsFor mode).map resp)) =
      okListOf mode resp := rfl
  rw [hok, if_neg h]

theorem variantsFor_ne_nil (mode : TravelMode) : variantsFor mode ≠ [] := by
  cases mode <;> decide

theorem variantsFor_head (mode : TravelMode) :
    (variantsFor mode).head (variantsFor_ne_nil mode) = firstVariant mode := by
  cases mode <;> rfl

/-! ## Claim C1 (corrected)

The spec says the all-fail message is the first `noRoute` message in
canonical kind order, falling back to the first `error` message, and
that the drive-mode `noRoute("M1")`/`noRoute("M2")` request surfaces
exactly `"M1"`.  The code instead surfaces `errorMessages[0]`: the
decorated message of the first failing variant in request order,
whatever its failure kind. -/

/-- All-fail outcome assignment refuting C1: in walk mode the first
request-order variant fails with `error` while later variants fail with
`noRoute`. -/
def respC1walk : RouteVariantKind → RouteResponse := fun k =>
  match k with
  | .walkSafe => .error "E1" (some 500)
  | .walkAccessible => .noRoute "M2"
  | .walkSafeAccessible => .noRoute "M3"
  | .driveFast => .noRoute ""
  | .driveSafe => .noRoute ""

/-- Drive-mode all-fail assignment of the claim's particular instance:
fastest fails with `noRoute("M1")`, safe with `noRoute("M2")`. -/
def respC1drive : RouteVariantKind → RouteResponse := fun k =>
  match k with
  | .driveFast => .noRoute "M1"
  | _ => .noRoute "M2"

/-- Claim C1, counterexample.  In walk mode with
`safe = error("E1")`, `accessible = noRoute("M2")`,
`safe+accessible = noRoute("M3")` every variant fails, yet the surfaced
message is the decorated error of the request-order-first variant — not
the first `noRoute` message in canonical kind order (`"M3"`, from
safe+accessible, canonical rank 0), neither raw nor decorated.  In the
claim's own drive-mode instance the surfaced message is
`"No Fastest route: M1"`, not `"M1"`. -/
theorem allFail_message_counterexample :
    (routeAgg .WALK respC1walk).error = some "Safe route error: E1" ∧
    "Safe route error: E1" ≠ "M3" ∧
    "Safe route error: E1" ≠ "No Safe + Accessible route: M3" ∧
    (routeAgg .DRIVE respC1drive).error = some "No Fastest route: M1" ∧
    "No Fastest route: M1" ≠ "M1" := by
  refine ⟨by decide, by decide, by decide, by decide, by decide⟩

/-- Claim C1, amended: when every variant of the request fails, the
surfaced error message is the decorated message (`failMessage`) of the
first failing variant in request order (walk: safe; drive: fastest) —
with no preference of `noRoute` over `error`; in particular the
drive-mode `noRoute("M1")`/`noRoute("M2")` request surfaces
`"No Fastest route: M1"`. -/
theorem allFail_message_is_first_request_order (mode : TravelMode)
    (resp : RouteVariantKind → RouteResponse)
    (h : ∀ k ∈ variantsFor mode, ∀ r, resp k ≠ .ok r) :
    (routeAgg mode resp).error =
      some (failMessage (firstVariant mode) (resp (firstVariant mode))) := by
  have hnil : okListOf mode resp = [] := (okListOf_eq_nil_iff mode resp).mpr h
  rw [routeAgg_of_all_fail mode resp hnil]
  have hfail : ∀ p ∈ pairsOf mode resp, ∀ r, p.2 ≠ RouteResponse.ok r := by
    intro p hp r
    rw [pairsOf_eq_map] at hp
    obtain ⟨k, hk, rfl⟩ := List.mem_map.mp hp
    exact h k hk r
  rw [failMessages_of_all_fail _ hfail, pairsOf_eq_map]
  cases mode <;> rfl

/-- Witness for the amended C1 at the claim's drive-mode instance. -/
theorem allFail_message_is_first_request_order_witness :
    (routeAgg .DRIVE respC1drive).error =
      some (failMessage (firstVariant .DRIVE) (respC1drive (firstVariant .DRIVE))) :=
  allFail_message_is_first_request_order .DRIVE respC1drive
    (by intro k hk r hb; cases k <;> simp [respC1drive] at hb)

/-! ## Claim C2 (confirmed): an error is surfaced iff every variant
fails -/

theorem sortRanked_ne_nil (mode : TravelMode) (l : List RouteChoice)
    (h : l ≠ []) : sortRanked mode l ≠ [] := by
  intro hc
  have hp := sortRanked_perm mode l
  rw [hc] at hp
  exact h hp.nil_eq.symm

theorem buildGroups_ne_nil (l : List OkEntry) (h : l ≠ []) :
    buildGroups l ≠ [] := by
  cases l with
  | nil => exact absurd rfl h
  | cons e rest =>
      intro hc
      obtain ⟨g, hg, _⟩ := buildGroups_cover (e :: rest) e (List.mem_cons_self _ _)
      rw [hc] at hg
      exact List.not_mem_nil _ hg

/-- Claim C2: a routing error is surfaced exactly when every variant of
the request failed; as soon as one variant returns `ok`, no error is
surfaced and a non-empty consolidated route list is shown. -/
theorem error_surfaced_iff_all_fail (mode : TravelMode)
    (resp : RouteVariantKind → RouteResponse) :
    ((routeAgg mode resp).error ≠ none ↔
      ∀ k ∈ variantsFor mode, ∀ r, resp k ≠ .ok r) ∧
    ((∃ k ∈ variantsFor mode, ∃ r, resp k = .ok r) →
      (routeAgg mode resp).error = none ∧ (routeAgg mode resp).choices ≠ []) := by
  have hchoices : okListOf mode resp ≠ [] →
      (routeAgg mode resp).error = none ∧ (routeAgg mode resp).choices ≠ [] := by
    intro h
    rw [routeAgg_of_some_ok mode resp h]
    refine ⟨rfl, ?_⟩
    show sortRanked mode ((buildGroups (okListOf mode resp)).map (mkChoice mode)) ≠ []
    refine sortRanked_ne_nil mode _ ?_
    intro hc
    rw [List.map_eq_nil_iff] at hc
    exact buildGroups_ne_nil _ h hc
  constructor
  · constructor
    · intro herr
      rw [← okListOf_eq_nil_iff]
      by_contra hne
      exact herr (hchoices hne).1
    · intro h
      rw [routeAgg_of_all_fail mode resp ((okListOf_eq_nil_iff mode resp).mpr h)]
      simp
  · rintro ⟨k, hk, r, hr⟩
    refine hchoices ?_
    intro hnil
    exact (okListOf_eq_nil_iff mode resp).mp hnil k hk r hr

/-- Witness for C2 at a concrete drive-mode request where `fastest`
fails and `safe` succeeds: no error is surfaced and choices are shown. -/
theorem error_surfaced_iff_all_fail_witness :
    (routeAgg .DRIVE (fun k =>
      match k with
      | .driveSafe => .ok ⟨100, 60, [1], [2], [(0, 0), (1, 1)]⟩
      | _ => .error "boom" (some 500))).error = none ∧
    (routeAgg .DRIVE (fun k =>
      match k with
      | .driveSafe => .ok ⟨100, 60, [1], [2], [(0, 0), (1, 1)]⟩
      | _ => .error "boom" (some 500))).choices ≠ [] :=
  (error_surfaced_iff_all_fail .DRIVE _).2
    ⟨.driveSafe, by decide, ⟨100, 60, [1], [2], [(0, 0), (1, 1)]⟩, rfl⟩

/-! ## Claim C3 (confirmed): completion-order independence -/

theorem settleStep_length {n : ℕ} (resp : Fin n → RouteResponse)
    (slots : List (Option RouteResponse)) (i : Fin n) :
    (settleStep resp slots i).length = slots.length := by
  rw [settleStep, List.length_set]

theorem foldl_settle_length {n : ℕ} (resp : Fin n → RouteResponse)
    (order : List (Fin n)) (slots : List (Option RouteResponse)) :
    (order.foldl (settleStep resp) slots).length = slots.length := by
  induction order generalizing slots with
  | nil => rfl
  | cons a rest ih =>
      rw [List.foldl_cons, ih, settleStep_length]

theorem foldl_settle_get_not_mem {n : ℕ} (resp : Fin n → RouteResponse)
    (order : List (Fin n)) (slots : List (Option RouteResponse)) (i : Fin n)
    (hi : i ∉ order) :
    (order.foldl (settleStep resp) slots)[i.val]? = slots[i.val]? := by
  induction order generalizing slots with
  | nil => rfl
  | cons a rest ih =>
      have hia : i ≠ a := fun hc => hi (hc ▸ List.mem_cons_self _ _)
      have hir : i ∉ rest := fun hc => hi (List.mem_cons_of_mem _ hc)
      rw [List.foldl_cons, ih _ hir, settleStep,
        List.getElem?_set_ne (fun hc => hia (Fin.ext hc.symm))]

theorem foldl_settle_get_mem {n : ℕ} (resp : Fin n → RouteResponse)
    (order : List (Fin n)) (slots : List (Option RouteResponse))
    (hlen : slots.length = n) (i : Fin n) (hi : i ∈ order) :
    (order.foldl (settleStep resp) slots)[i.val]? = some (some (resp i)) := by
  induction order generalizing slots with
  | nil => cases hi
  | cons a rest ih =>
      rw [List.foldl_cons]
      by_cases hir : i ∈ rest
      · exact ih _ (by rw [settleStep_length]; exact hlen) hir
      · have hia : i = a := by
          rcases List.mem_cons.mp hi with h | h
          · exact h
          · exact absurd h hir
        subst hia
        rw [foldl_settle_get_not_mem resp rest _ i hir, settleStep,
          List.getElem?_set_self (by rw [hlen]; exact i.isLt)]

theorem settleAll_complete {n : ℕ} (resp : Fin n → RouteResponse)
    (order : List (Fin n)) (h : ∀ i : Fin n, i ∈ order) :
    settleAll resp order = List.ofFn fun i => some (resp i) := by
  refine List.ext_getElem? fun j => ?_
  by_cases hj : j < n
  · have hl := foldl_settle_get_mem resp order (List.replicate n none)
      (List.length_replicate _ _) ⟨j, hj⟩ (h ⟨j, hj⟩)
    rw [settleAll, hl, List.getElem?_ofFn]
    simp [List.ofFnNthVal, hj]
  · have h₁ : (settleAll resp order).length ≤ j := by
      rw [settleAll, foldl_settle_length, List.length_replicate]
      omega
    have h₂ : (List.ofFn fun i : Fin n => some (resp i)).length ≤ j := by
      rw [List.length_ofFn]
      omega
    rw [List.getElem?_eq_none h₁, List.getElem?_eq_none h₂]

theorem reduceOption_ofFn_some {n : ℕ} (f : Fin n → RouteResponse) :
    (List.ofFn fun i => some (f i)).reduceOption = List.ofFn f := by
  induction n with
  | zero => rfl
  | succ m ih =>
      rw [List.ofFn_succ, List.ofFn_succ, List.reduceOption_cons_of_some, ih]

/-- Claim C3: for a fixed assignment of outcomes to the per-variant
requests, the whole aggregation result — consolidated choices with their
ids, labels, colors and order, the default selection and the error — is
the same for any two completion orders of the requests, and always
equals the aggregation of the responses read back in request order:
`Promise.all` fills each slot by request index, never by arrival
order. -/
theorem aggregation_completion_order_independent (mode : TravelMode)
    (resp : Fin (variantsFor mode).length → RouteResponse)
    (o₁ o₂ : List (Fin (variantsFor mode).length))
    (h₁ : ∀ i, i ∈ o₁) (h₂ : ∀ i, i ∈ o₂) :
    aggregateArrived mode resp o₁ = aggregateArrived mode resp o₂ ∧
    aggregateArrived mode resp o₁ = aggregateRoutes mode (List.ofFn resp) := by
  constructor
  · rw [aggregateArrived, aggregateArrived, settleAll_complete resp o₁ h₁,
      settleAll_complete resp o₂ h₂]
  · rw [aggregateArrived, settleAll_complete resp o₁ h₁, reduceOption_ofFn_some]

/-- Witness for C3: a drive-mode request whose two variants complete in
either order yields the same aggregate. -/
theorem aggregation_completion_order_independent_witness :
    aggregateArrived .DRIVE
      (fun i => if i.val = 0 then .ok ⟨5, 6, [], [], [(0, 0)]⟩ else .noRoute "m")
      [⟨0, by decide⟩, ⟨1, by decide⟩] =
    aggregateArrived .DRIVE
      (fun i => if i.val = 0 then .ok ⟨5, 6, [], [], [(0, 0)]⟩ else .noRoute "m")
      [⟨1, by decide⟩, ⟨0, by decide⟩] :=
  (aggregation_completion_order_independent .DRIVE _
    [⟨0, by decide⟩, ⟨1, by decide⟩] [⟨1, by decide⟩, ⟨0, by decide⟩]
    (by decide) (by decide)).1

/-! ## Bridging groups and choices -/

theorem contains_iff_mem {α : Type} [DecidableEq α] (l : List α) (a : α) :
    l.contains a = true ↔ a ∈ l := List.elem_iff

theorem mem_kindOrder_iff_variantsFor (mode : TravelMode) (k : RouteVariantKind) :
    k ∈ kindOrder mode ↔ k ∈ variantsFor mode := by
  cases mode <;> cases k <;> decide

theorem kindOrder_nodup (mode : TravelMode) : (kindOrder mode).Nodup := by
  cases mode <;> decide

theorem mkChoice_kinds (mode : TravelMode) (g : RouteGroup) :
    (mkChoice mode g).kinds = (kindOrder mode).filter fun k => g.kinds.contains k :=
  rfl

theorem mem_mkChoice_kinds (mode : TravelMode) (g : RouteGroup)
    (k : RouteVariantKind) :
    k ∈ (mkChoice mode g).kinds ↔ k ∈ kindOrder mode ∧ k ∈ g.kinds := by
  rw [mkChoice_kinds, List.mem_filter, contains_iff_mem, and_comm]

theorem mem_routeAgg_choices (mode : TravelMode)
    (resp : RouteVariantKind → RouteResponse) (h : okListOf mode resp ≠ [])
    (c : RouteChoice) :
    c ∈ (routeAgg mode resp).choices ↔
      ∃ g ∈ buildGroups (okListOf mode resp), c = mkChoice mode g := by
  rw [routeAgg_of_some_ok mode resp h]
  show c ∈ sortRanked mode ((buildGroups (okListOf mode resp)).map (mkChoice mode)) ↔ _
  rw [mem_sortRanked, List.mem_map]
  constructor
  · rintro ⟨g, hg, rfl⟩
    exact ⟨g, hg, rfl⟩
  · rintro ⟨g, hg, rfl⟩
    exact ⟨g, hg, rfl⟩

theorem group_kinds_subset_variants (mode : TravelMode)
    (resp : RouteVariantKind → RouteResponse) (g : RouteGroup)
    (hg : g ∈ buildGroups (okListOf mode resp)) (k : RouteVariantKind)
    (hk : k ∈ g.kinds) : k ∈ variantsFor mode := by
  rw [mem_kinds_buildGroups_iff _ _ hg] at hk
  obtain ⟨r, hrl, _⟩ := hk
  exact (of_mem_okListOf mode resp ⟨k, r⟩ hrl).1

theorem okEntry_kind_inj (mode : TravelMode)
    (resp : RouteVariantKind → RouteResponse) (e₁ e₂ : OkEntry)
    (h₁ : e₁ ∈ okListOf mode resp) (h₂ : e₂ ∈ okListOf mode resp)
    (hk : e₁.kind = e₂.kind) : e₁ = e₂ :=
  List.inj_on_of_nodup_map (kinds_okListOf_nodup mode resp) h₁ h₂ hk

theorem group_kinds_disjoint (mode : TravelMode)
    (resp : RouteVariantKind → RouteResponse) (g₁ g₂ : RouteGroup)
    (h₁ : g₁ ∈ buildGroups (okListOf mode resp))
    (h₂ : g₂ ∈ buildGroups (okListOf mode resp))
    (hne : g₁.result.coordinates ≠ g₂.result.coordinates)
    (k : RouteVariantKind) : ¬(k ∈ g₁.kinds ∧ k ∈ g₂.kinds) := by
  rintro ⟨hk₁, hk₂⟩
  rw [mem_kinds_buildGroups_iff _ _ h₁] at hk₁
  rw [mem_kinds_buildGroups_iff _ _ h₂] at hk₂
  obtain ⟨r₁, hl₁, hc₁⟩ := hk₁
  obtain ⟨r₂, hl₂, hc₂⟩ := hk₂
  have heq := okEntry_kind_inj mode resp ⟨k, r₁⟩ ⟨k, r₂⟩ hl₁ hl₂ rfl
  have hr : r₁ = r₂ := congrArg OkEntry.result heq
  exact hne (hc₁ ▸ hr ▸ hc₂)

theorem groups_key_inj (l : List OkEntry) (g₁ g₂ : RouteGroup)
    (h₁ : g₁ ∈ buildGroups l) (h₂ : g₂ ∈ buildGroups l)
    (hkey : g₁.result.coordinates = g₂.result.coordinates) : g₁ = g₂ := by
  by_contra hne
  have hsym : Symmetric fun a b : RouteGroup =>
      a.result.coordinates ≠ b.result.coordinates :=
    fun a b hab hc => hab hc.symm
  exact (buildGroups_keys_pairwise l).forall hsym h₁ h₂ hne hkey

theorem routeAgg_choices_pairwise (mode : TravelMode)
    (resp : RouteVariantKind → RouteResponse) (h : okListOf mode resp ≠ []) :
    (routeAgg mode resp).choices.Pairwise fun c₁ c₂ =>
      (∀ k, ¬(k ∈ c₁.kinds ∧ k ∈ c₂.kinds)) ∧
      c₁.result.coordinates ≠ c₂.result.coordinates := by
  have hsym : Symmetric fun c₁ c₂ : RouteChoice =>
      (∀ k, ¬(k ∈ c₁.kinds ∧ k ∈ c₂.kinds)) ∧
      c₁.result.coordinates ≠ c₂.result.coordinates := by
    intro a b hab
    exact ⟨fun k hk => hab.1 k ⟨hk.2, hk.1⟩, fun hc => hab.2 hc.symm⟩
  rw [routeAgg_of_some_ok mode resp h]
  show List.Pairwise _
    (sortRanked mode ((buildGroups (okListOf mode resp)).map (mkChoice mode)))
  rw [List.Perm.pairwise_iff (fun hab => hsym hab) (sortRanked_perm mode _),
    List.pairwise_map]
  have hpair := buildGroups_keys_pairwise (okListOf mode resp)
  refine List.Pairwise.imp_of_mem ?_ hpair
  intro g₁ g₂ hg₁ hg₂ hne
  refine ⟨?_, hne⟩
  intro k hk
  refine group_kinds_disjoint mode resp g₁ g₂ hg₁ hg₂ hne k ?_
  exact ⟨((mem_mkChoice_kinds mode g₁ k).mp hk.1).2,
    ((mem_mkChoice_kinds mode g₂ k).mp hk.2).2⟩

/-! ## Claim C4 (confirmed): deduplication by exact coordinate
equality -/

/-- Claim C4: two `ok` variants with element-wise identical coordinate
sequences always land in exactly one consolidated choice carrying both
kinds; two `ok` variants with different coordinate sequences always land
in two distinct choices (and no choice carries both); and no two
choices of one result set share a kind or carry equal coordinate
sequences. -/
theorem dedup_by_exact_coordinates (mode : TravelMode)
    (resp : RouteVariantKind → RouteResponse) (k₁ k₂ : RouteVariantKind)
    (r₁ r₂ : RouteResult) (hk₁ : k₁ ∈ variantsFor mode)
    (hk₂ : k₂ ∈ variantsFor mode)
    (h₁ : resp k₁ = .ok r₁) (h₂ : resp k₂ = .ok r₂) :
    (r₁.coordinates = r₂.coordinates →
      ∃! c, c ∈ (routeAgg mode resp).choices ∧ k₁ ∈ c.kinds ∧ k₂ ∈ c.kinds) ∧
    (r₁.coordinates ≠ r₂.coordinates →
      (∃ c₁ c₂, c₁ ∈ (routeAgg mode resp).choices ∧
        c₂ ∈ (routeAgg mode resp).choices ∧ c₁ ≠ c₂ ∧
        k₁ ∈ c₁.kinds ∧ k₂ ∈ c₂.kinds) ∧
      ∀ c ∈ (routeAgg mode resp).choices, ¬(k₁ ∈ c.kinds ∧ k₂ ∈ c.kinds)) ∧
    (routeAgg mode resp).choices.Pairwise (fun c₁ c₂ =>
      (∀ k, ¬(k ∈ c₁.kinds ∧ k ∈ c₂.kinds)) ∧
      c₁.result.coordinates ≠ c₂.result.coordinates) := by
  have he₁ : (⟨k₁, r₁⟩ : OkEntry) ∈ okListOf mode resp :=
    mem_okListOf_of_ok mode resp k₁ r₁ hk₁ h₁
  have he₂ : (⟨k₂, r₂⟩ : OkEntry) ∈ okListOf mode resp :=
    mem_okListOf_of_ok mode resp k₂ r₂ hk₂ h₂
  have hnil : okListOf mode resp ≠ [] := by
    intro hc
    rw [hc] at he₁
    exact List.not_mem_nil _ he₁
  refine ⟨?_, ?_, routeAgg_choices_pairwise mode resp hnil⟩
  · intro hcoords
    obtain ⟨g, hg, hkey⟩ := buildGroups_cover _ _ he₁
    have hk₁g : k₁ ∈ g.kinds :=
      (mem_kinds_buildGroups_iff _ _ hg k₁).mpr ⟨r₁, he₁, hkey.symm⟩
    have hk₂g : k₂ ∈ g.kinds :=
      (mem_kinds_buildGroups_iff _ _ hg k₂).mpr
        ⟨r₂, he₂, by rw [← hcoords]; exact hkey.symm⟩
    refine ⟨mkChoice mode g, ⟨?_, ?_, ?_⟩, ?_⟩
    · exact (mem_routeAgg_choices mode resp hnil _).mpr ⟨g, hg, rfl⟩
    · exact (mem_mkChoice_kinds mode g k₁).mpr
        ⟨(mem_kindOrder_iff_variantsFor mode k₁).mpr hk₁, hk₁g⟩
    · exact (mem_mkChoice_kinds mode g k₂).mpr
        ⟨(mem_kindOrder_iff_variantsFor mode k₂).mpr hk₂, hk₂g⟩
    · rintro c' ⟨hc', hck₁, _⟩
      obtain ⟨g', hg', rfl⟩ := (mem_routeAgg_choices mode resp hnil c').mp hc'
      have hk₁g' : k₁ ∈ g'.kinds := ((mem_mkChoice_kinds mode g' k₁).mp hck₁).2
      obtain ⟨r', hl', hcr'⟩ := (mem_kinds_buildGroups_iff _ _ hg' k₁).mp hk₁g'
      have heq := okEntry_kind_inj mode resp ⟨k₁, r'⟩ ⟨k₁, r₁⟩ hl' he₁ rfl
      have hr : r' = r₁ := congrArg OkEntry.result heq
      have : g'.result.coordinates = g.result.coordinates := by
        rw [← hcr', hr, hkey]
      rw [groups_key_inj _ g' g hg' hg this]
  · intro hcoords
    obtain ⟨g₁, hg₁, hkey₁⟩ := buildGroups_cover _ _ he₁
    obtain ⟨g₂, hg₂, hkey₂⟩ := buildGroups_cover _ _ he₂
    have hk₁g : k₁ ∈ g₁.kinds :=
      (mem_kinds_buildGroups_iff _ _ hg₁ k₁).mpr ⟨r₁, he₁, hkey₁.symm⟩
    have hk₂g : k₂ ∈ g₂.kinds :=
      (mem_kinds_buildGroups_iff _ _ hg₂ k₂).mpr ⟨r₂, he₂, hkey₂.symm⟩
    constructor
    · refine ⟨mkChoice mode g₁, mkChoice mode g₂,
        (mem_routeAgg_choices mode resp hnil _).mpr ⟨g₁, hg₁, rfl⟩,
        (mem_routeAgg_choices mode resp hnil _).mpr ⟨g₂, hg₂, rfl⟩, ?_, ?_, ?_⟩
      · intro hc
        have : g₁.result.coordinates = g₂.result.coordinates :=
          congrArg (fun c => c.result.coordinates) hc
        exact hcoords (by rw [← hkey₁, this, hkey₂])
      · exact (mem_mkChoice_kinds mode g₁ k₁).mpr
          ⟨(mem_kindOrder_iff_variantsFor mode k₁).mpr hk₁, hk₁g⟩
      · exact (mem_mkChoice_kinds mode g₂ k₂).mpr
          ⟨(mem_kindOrder_iff_variantsFor mode k₂).mpr hk₂, hk₂g⟩
    · rintro c hc ⟨hck₁, hck₂⟩
      obtain ⟨g, hg, rfl⟩ := (mem_routeAgg_choices mode resp hnil c).mp hc
      obtain ⟨r₁', hl₁', hcr₁⟩ := (mem_kinds_buildGroups_iff _ _ hg k₁).mp
        ((mem_mkChoice_kinds mode g k₁).mp hck₁).2
      obtain ⟨r₂', hl₂', hcr₂⟩ := (mem_kinds_buildGroups_iff _ _ hg k₂).mp
        ((mem_mkChoice_kinds mode g k₂).mp hck₂).2
      have e₁eq := okEntry_kind_inj mode resp ⟨k₁, r₁'⟩ ⟨k₁, r₁⟩ hl₁' he₁ rfl
      have e₂eq := okEntry_kind_inj mode resp ⟨k₂, r₂'⟩ ⟨k₂, r₂⟩ hl₂' he₂ rfl
      have hr₁ : r₁' = r₁ := congrArg OkEntry.result e₁eq
      have hr₂ : r₂' = r₂ := congrArg OkEntry.result e₂eq
      rw [hr₁] at hcr₁
      rw [hr₂] at hcr₂
      exact hcoords (hcr₁.trans hcr₂.symm)
/-- Witness for C4: in a walk request where safe and accessible return
identical coordinate sequences (and safe+accessible fails), exactly one
consolidated choice carries both kinds. -/
theorem dedup_by_exact_coordinates_witness :
    ∃! c, c ∈ (routeAgg .WALK (fun k =>
        match k with
        | .walkSafe => .ok ⟨10, 60, [1], [2], [(0, 0), (1, 1)]⟩
        | .walkAccessible => .ok ⟨20, 75, [3], [4], [(0, 0), (1, 1)]⟩
        | _ => .noRoute "blocked")).choices ∧
      RouteVariantKind.walkSafe ∈ c.kinds ∧
      RouteVariantKind.walkAccessible ∈ c.kinds :=
  (dedup_by_exact_coordinates .WALK _ .walkSafe .walkAccessible
    ⟨10, 60, [1], [2], [(0, 0), (1, 1)]⟩ ⟨20, 75, [3], [4], [(0, 0), (1, 1)]⟩
    (by decide) (by decide) rfl rfl).1 rfl

/-! ## Claim C5 (confirmed): ids, labels, colors, ordering and default
selection -/

/-- Canonical rank of a kind inside its travel mode: its index in
`kindOrder`. -/
def kindRank (mode : TravelMode) (k : RouteVariantKind) : ℕ :=
  (kindOrder mode).indexOf k

theorem pairwise_indexOf_filter {α : Type} [DecidableEq α] (l : List α)
    (hl : l.Nodup) (p : α → Bool) :
    (l.filter p).Pairwise fun a b => l.indexOf a ≤ l.indexOf b := by
  induction l with
  | nil => simp
  | cons a rest ih =>
      rw [List.nodup_cons] at hl
      rw [List.filter_cons]
      have tail : (rest.filter p).Pairwise
          (fun x y => (a :: rest).indexOf x ≤ (a :: rest).indexOf y) := by
        refine List.Pairwise.imp_of_mem ?_ (ih hl.2)
        intro x y hx hy hxy
        have hxa : a ≠ x := fun hc => hl.1 (hc ▸ (List.mem_filter.mp hx).1)
        have hya : a ≠ y := fun hc => hl.1 (hc ▸ (List.mem_filter.mp hy).1)
        rw [List.indexOf_cons_ne rest hxa, List.indexOf_cons_ne rest hya]
        exact Nat.succ_le_succ hxy
      cases hpa : p a with
      | false => simpa [hpa] using tail
      | true =>
          rw [if_pos rfl, List.pairwise_cons]
          refine ⟨?_, tail⟩
          intro b _
          rw [List.indexOf_cons_self]
          exact Nat.zero_le _

theorem mkChoice_kinds_sorted (mode : TravelMode) (g : RouteGroup) :
    (mkChoice mode g).kinds.Pairwise fun a b =>
      kindRank mode a ≤ kindRank mode b := by
  rw [mkChoice_kinds]
  exact pairwise_indexOf_filter (kindOrder mode) (kindOrder_nodup mode) _

theorem mkChoice_kinds_ne_nil (mode : TravelMode)
    (resp : RouteVariantKind → RouteResponse) (g : RouteGroup)
    (hg : g ∈ buildGroups (okListOf mode resp)) :
    (mkChoice mode g).kinds ≠ [] := by
  obtain ⟨k, hk⟩ := List.exists_mem_of_ne_nil _
    (buildGroups_kinds_ne_nil _ g hg)
  intro hc
  have hmem : k ∈ (mkChoice mode g).kinds :=
    (mem_mkChoice_kinds mode g k).mpr
      ⟨(mem_kindOrder_iff_variantsFor mode k).mpr
        (group_kinds_subset_variants mode resp g hg k hk), hk⟩
  rw [hc] at hmem
  exact List.not_mem_nil _ hmem

theorem mkChoice_color_of_head (mode : TravelMode) (g : RouteGroup)
    (k₀ : RouteVariantKind) (tl : List RouteVariantKind)
    (h : (mkChoice mode g).kinds = k₀ :: tl) :
    (mkChoice mode g).color = routeColors k₀ := by
  have hfilter : ((kindOrder mode).filter fun k => g.kinds.contains k) = k₀ :: tl := h
  show (match (kindOrder mode).filter fun k => g.kinds.contains k with
    | [] => "#1f6feb"
    | k :: _ => routeColors k) = routeColors k₀
  rw [hfilter]

/-- Claim C5: every consolidated choice lists its contributing kinds in
canonical rank order; its id is those kinds joined with "-", its label
the kinds' display labels joined with " · ", and its color the color of
its best-ranked kind; the choice list is sorted by the rank of each
choice's best kind; and the selection defaults to the first choice
containing the mode's preferred kind (safe+accessible when walking,
fastest when driving), falling back to the first choice in sorted
order. -/
theorem choice_presentation_and_default_selection (mode : TravelMode)
    (resp : RouteVariantKind → RouteResponse)
    (h : ∃ k ∈ variantsFor mode, ∃ r, resp k = .ok r) :
    (∀ c ∈ (routeAgg mode resp).choices,
      c.kinds ≠ [] ∧
      c.kinds = ((kindOrder mode).filter fun k => c.kinds.contains k) ∧
      c.kinds.Pairwise (fun a b => kindRank mode a ≤ kindRank mode b) ∧
      c.id = String.intercalate "-" (c.kinds.map kindName) ∧
      c.label = String.intercalate " · " (c.kinds.map routeKindLabels) ∧
      ∃ k₀, c.kinds.head? = some k₀ ∧ c.color = routeColors k₀ ∧
        ∀ k ∈ c.kinds, kindRank mode k₀ ≤ kindRank mode k) ∧
    (routeAgg mode resp).choices.Pairwise
      (fun a b => choiceRank mode a ≤ choiceRank mode b) ∧
    (((routeAgg mode resp).choices.find? fun c =>
        c.kinds.contains (preferredKind mode)) = none →
      (routeAgg mode resp).selectedRouteId =
        (routeAgg mode resp).choices.head?.map fun c => c.id) ∧
    (∀ c, ((routeAgg mode resp).choices.find? fun c =>
        c.kinds.contains (preferredKind mode)) = some c →
      (routeAgg mode resp).selectedRouteId = some c.id) := by
  have hnil : okListOf mode resp ≠ [] := by
    obtain ⟨k, hk, r, hr⟩ := h
    intro hc
    exact (okListOf_eq_nil_iff mode resp).mp hc k hk r hr
  refine ⟨?_, ?_, ?_, ?_⟩
  · intro c hc
    obtain ⟨g, hg, rfl⟩ := (mem_routeAgg_choices mode resp hnil c).mp hc
    have hne := mkChoice_kinds_ne_nil mode resp g hg
    have hsorted := mkChoice_kinds_sorted mode g
    obtain ⟨k₀, tl, hcons⟩ := List.exists_cons_of_ne_nil hne
    refine ⟨hne, ?_, hsorted, rfl, rfl, k₀, ?_, mkChoice_color_of_head mode g k₀ tl hcons, ?_⟩
    · show ((kindOrder mode).filter fun k => g.kinds.contains k) =
        (kindOrder mode).filter fun k => (mkChoice mode g).kinds.contains k
      refine List.filter_congr ?_
      intro k hk
      cases hgk : g.kinds.contains k with
      | true =>
          symm
          rw [contains_iff_mem, mem_mkChoice_kinds]
          exact ⟨hk, (contains_iff_mem _ _).mp hgk⟩
      | false =>
          symm
          rw [← Bool.not_eq_true, contains_iff_mem, mem_mkChoice_kinds]
          rintro ⟨-, hkg⟩
          have hcg := (contains_iff_mem g.kinds k).mpr hkg
          rw [hcg] at hgk
          cases hgk
    · rw [hcons]
      rfl
    · intro k hk
      rw [hcons] at hk hsorted
      rcases List.mem_cons.mp hk with rfl | hk
      · exact le_refl _
      · exact (List.pairwise_cons.mp hsorted).1 k hk
  · rw [routeAgg_of_some_ok mode resp hnil]
    exact sortRanked_sorted mode _
  · intro hnone
    rw [routeAgg_of_some_ok mode resp hnil] at hnone ⊢
    simp only at hnone ⊢
    rw [hnone]
    rfl
  · intro c hc
    rw [routeAgg_of_some_ok mode resp hnil] at hc ⊢
    simp only at hc ⊢
    rw [hc]
    rfl

/-- Witness for C5 at a drive request where both variants succeed with
different geometries. -/
theorem choice_presentation_witness :
    ((routeAgg .DRIVE (fun k =>
      match k with
      | .driveFast => .ok ⟨10, 60, [1], [2], [(0, 0), (1, 1)]⟩
      | _ => .ok ⟨20, 75, [3], [4], [(0, 0), (2, 2)]⟩)).choices.Pairwise
        fun a b => choiceRank .DRIVE a ≤ choiceRank .DRIVE b) :=
  (choice_presentation_and_default_selection .DRIVE _
    ⟨.driveFast, by decide, ⟨10, 60, [1], [2], [(0, 0), (1, 1)]⟩, rfl⟩).2.1

/-! ## Claim C10 (confirmed): a merged choice keeps the first
contributing variant's result -/

/-- Claim C10: every consolidated choice's shared `RouteResult` is
exactly the result of the first `ok` variant, in request order, whose
coordinate sequence equals the choice's; the non-coordinate fields
(distance, duration, node and edge ids) of later merged variants are
dropped — no hypothesis relates them to the kept result. -/
theorem merged_choice_keeps_first_result (mode : TravelMode)
    (resp : RouteVariantKind → RouteResponse) (c : RouteChoice)
    (hc : c ∈ (routeAgg mode resp).choices) :
    ∃ e, (okListOf mode resp).find? (fun x =>
        decide (x.result.coordinates = c.result.coordinates)) = some e ∧
      c.result = e.result ∧ e.kind ∈ c.kinds := by
  have hnil : okListOf mode resp ≠ [] := by
    intro hemp
    rw [routeAgg_of_all_fail mode resp hemp] at hc
    exact List.not_mem_nil _ hc
  obtain ⟨g, hg, rfl⟩ := (mem_routeAgg_choices mode resp hnil c).mp hc
  obtain ⟨e, hfind, heres⟩ := buildGroups_first_result _ g hg
  have hmemf := mem_filter_of_find? _ _ _ hfind
  have hel : e ∈ okListOf mode resp := (List.mem_filter.mp hmemf).1
  have hkey : e.result.coordinates = g.result.coordinates := by
    have := (List.mem_filter.mp hmemf).2
    simpa using this
  refine ⟨e, hfind, heres.symm, ?_⟩
  rw [mem_mkChoice_kinds]
  have hkg : e.kind ∈ g.kinds := by
    rw [mem_kinds_buildGroups_iff _ _ hg]
    exact ⟨e.result, by cases e; exact hel, hkey⟩
  exact ⟨(mem_kindOrder_iff_variantsFor mode e.kind).mpr
    (group_kinds_subset_variants mode resp g hg e.kind hkg), hkg⟩

/-- Witness for C10: safe and accessible walk variants return
identical coordinates but different distances; the merged choice keeps
the result of the earlier (request-order) variant, walkSafe, whose
distance is 10. -/
theorem merged_choice_keeps_first_result_witness :
    (∃ e, (okListOf .WALK (fun k =>
        match k with
        | .walkSafe => .ok ⟨10, 60, [1], [2], [(0, 0), (1, 1)]⟩
        | .walkAccessible => .ok ⟨20, 75, [3], [4], [(0, 0), (1, 1)]⟩
        | _ => .noRoute "blocked")).find? (fun x =>
          decide (x.result.coordinates =
            (mkChoice .WALK ⟨[.walkSafe, .walkAccessible],
              ⟨10, 60, [1], [2], [(0, 0), (1, 1)]⟩⟩).result.coordinates)) = some e ∧
      (mkChoice .WALK ⟨[.walkSafe, .walkAccessible],
        ⟨10, 60, [1], [2], [(0, 0), (1, 1)]⟩⟩).result = e.result ∧
      e.kind ∈ (mkChoice .WALK ⟨[.walkSafe, .walkAccessible],
        ⟨10, 60, [1], [2], [(0, 0), (1, 1)]⟩⟩).kinds) ∧
    (mkChoice .WALK ⟨[.walkSafe, .walkAccessible],
      ⟨10, 60, [1], [2], [(0, 0), (1, 1)]⟩⟩).result.distanceMeters = 10 :=
  ⟨merged_choice_keeps_first_result .WALK _ _ (by decide), by decide⟩

/-! ## Claim C6 (corrected): point edits and derived route state

The claim covers three ways of setting a point: normal-mode map clicks,
manual coordinate-field edits, and geocode-driven assignment.  The first
two are synchronous and do clear all derived state.  `handlePlaceSearch`
however clears *before* its `await geocodePlace` suspension
(App.tsx line 240) and applies the resolved assignment with no second
clearing and no staleness guard: a route computation completing while
the geocode is in flight leaves the geocode-driven start change with
non-empty route state. -/

/-- Counterexample schedule: both points set by clicks, a start place
search is issued (clearing and suspending on the geocoder), then Route
is clicked and completes while the geocode is still in flight. -/
def c6Trace : List Action :=
  [.mapClick 1 1, .mapClick 2 2, .placeSearchStart .start false,
   .route [.ok ⟨10, 60, [1], [2], [(0, 0)]⟩, .noRoute "x", .noRoute "y"]]

/-- Claim C6, counterexample: when the suspended geocode resolves, its
assignment changes start (from the clicked point to the geocoded one)
yet leaves the consolidated route list non-empty — indeed unchanged —
and the selection present, because `applyGeocodeResult` performs no
clearing. -/
theorem geocode_assignment_stale_route_counterexample :
    (runActs c6Trace initState).start = some ⟨1, 1⟩ ∧
    (runActs c6Trace initState).routeChoices ≠ [] ∧
    (step (.geocodeDone 0 (.ok 3 3 "Ithaca Commons"))
      (runActs c6Trace initState)).start = some ⟨3, 3⟩ ∧
    (step (.geocodeDone 0 (.ok 3 3 "Ithaca Commons"))
      (runActs c6Trace initState)).routeChoices =
      (runActs c6Trace initState).routeChoices ∧
    (step (.geocodeDone 0 (.ok 3 3 "Ithaca Commons"))
      (runActs c6Trace initState)).routeChoices ≠ [] ∧
    (step (.geocodeDone 0 (.ok 3 3 "Ithaca Commons"))
      (runActs c6Trace initState)).selectedRouteId ≠ none := by
  refine ⟨?_, ?_, ?_, ?_, ?_, ?_⟩ <;> decide

/-- The synchronous actions that set or change the start or end point:
a map click in normal (non hazard-pick) mode and the manual
coordinate-field edits. -/
def PointEditAt (s : AppState) : Action → Prop
  | .mapClick _ _ => s.hazardPickMode = false
  | .setStartInputs _ _ => True
  | .setEndInputs _ _ => True
  | _ => False

/-- Claim C6, amended: after any sequence of events, every normal-mode
map click and every manual coordinate-field edit leaves the consolidated
route list empty, the selection absent, the marker set empty and the
routing error cleared; a geocode-driven place search clears all of that
state when the search is issued (before awaiting the geocoder), but the
point assignment applied when the geocoder resolves performs no clearing
of its own — it leaves route list, selection and markers exactly as the
intervening events left them. -/
theorem point_edit_clears_derived_state (acts : List Action) :
    (∀ a, PointEditAt (runActs acts initState) a →
      (step a (runActs acts initState)).routeChoices = [] ∧
      (step a (runActs acts initState)).selectedRouteId = none ∧
      (step a (runActs acts initState)).routeMarkers = [] ∧
      (step a (runActs acts initState)).error = none) ∧
    (∀ t : PointTarget,
      (step (.placeSearchStart t false) (runActs acts initState)).routeChoices = [] ∧
      (step (.placeSearchStart t false) (runActs acts initState)).selectedRouteId = none ∧
      (step (.placeSearchStart t false) (runActs acts initState)).routeMarkers = [] ∧
      (step (.placeSearchStart t false) (runActs acts initState)).error = none) ∧
    (∀ i res,
      (step (.geocodeDone i res) (runActs acts initState)).routeChoices =
        (runActs acts initState).routeChoices ∧
      (step (.geocodeDone i res) (runActs acts initState)).selectedRouteId =
        (runActs acts initState).selectedRouteId ∧
      (step (.geocodeDone i res) (runActs acts initState)).routeMarkers =
        (runActs acts initState).routeMarkers) := by
  refine ⟨?_, ?_, ?_⟩
  · suffices H : ∀ (s : AppState) a, PointEditAt s a →
        (step a s).routeChoices = [] ∧ (step a s).selectedRouteId = none ∧
        (step a s).routeMarkers = [] ∧ (step a s).error = none from
      fun a h => H _ a h
    intro s a hs
    cases a with
    | mapClick lat lon =>
        have hpm : s.hazardPickMode = false := hs
        simp only [step, hpm, Bool.false_eq_true, if_false, normalMapClick]
        split <;> simp [clearRouteState]
    | setStartInputs latVal lonVal =>
        simp only [step, stepSetStartInputs]
        split <;> [skip; simp [clearRouteState]]
        split <;> simp [clearRouteState]
    | setEndInputs latVal lonVal =>
        simp only [step, stepSetEndInputs]
        split <;> [skip; simp [clearRouteState]]
        split <;> simp [clearRouteState]
    | placeSearchStart t queryEmpty => cases hs
    | geocodeDone i res => cases hs
    | route responses => cases hs
    | selectRoute i => cases hs
    | toggleHazardPick => cases hs
    | clearHazardLocation => cases hs
    | clearAll => cases hs
    | setTravelMode m => cases hs
    | boundsChange b => cases hs
    | deviceFix lat lon => cases hs
    | deviceFixFail => cases hs
    | reverseDone i res => cases hs
    | completeMarkerFetch i res => cases hs
  · intro t
    simp only [step, stepPlaceSearchStart, Bool.false_eq_true, if_false]
    simp [clearRouteState]
  · intro i res
    suffices H : ∀ s : AppState,
        (step (.geocodeDone i res) s).routeChoices = s.routeChoices ∧
        (step (.geocodeDone i res) s).selectedRouteId = s.selectedRouteId ∧
        (step (.geocodeDone i res) s).routeMarkers = s.routeMarkers from H _
    intro s
    simp only [step, stepGeocodeDone, applyGeocodeResult]
    split
    · exact ⟨rfl, rfl, rfl⟩
    · split
      · split
        · split <;> exact ⟨rfl, rfl, rfl⟩
        · exact ⟨rfl, rfl, rfl⟩
      · exact ⟨rfl, rfl, rfl⟩

/-- Witness for the amended C6: a manual start-coordinate edit from the
initial state clears all four pieces of derived state. -/
theorem point_edit_clears_derived_state_witness :
    (step (.setStartInputs (some 1) (some 1)) (runActs [] initState)).routeChoices = [] ∧
    (step (.setStartInputs (some 1) (some 1)) (runActs [] initState)).selectedRouteId = none ∧
    (step (.setStartInputs (some 1) (some 1)) (runActs [] initState)).routeMarkers = [] ∧
    (step (.setStartInputs (some 1) (some 1)) (runActs [] initState)).error = none :=
  (point_edit_clears_derived_state []).1 (.setStartInputs (some 1) (some 1)) trivial

/-! ## Claim C9 (confirmed): hazard-pick clicks are one-shot -/

/-- Claim C9: while hazard-pick mode is on, a map click is consumed as
the hazard coordinate and flips hazard-pick mode off, leaving the
start/end point-selection state (and all route-derived state) untouched;
the following click is then handled as a normal start/end click — in
particular it no longer touches the hazard location. -/
theorem hazard_pick_one_shot (acts : List Action) (lat lon lat' lon' : ℚ)
    (h : (runActs acts initState).hazardPickMode = true) :
    (step (.mapClick lat lon) (runActs acts initState)).hazardLocation =
      some ⟨lat, lon⟩ ∧
    (step (.mapClick lat lon) (runActs acts initState)).hazardPickMode = false ∧
    (step (.mapClick lat lon) (runActs acts initState)).start =
      (runActs acts initState).start ∧
    (step (.mapClick lat lon) (runActs acts initState)).endPoint =
      (runActs acts initState).endPoint ∧
    (step (.mapClick lat lon) (runActs acts initState)).startPlace =
      (runActs acts initState).startPlace ∧
    (step (.mapClick lat lon) (runActs acts initState)).endPlace =
      (runActs acts initState).endPlace ∧
    (step (.mapClick lat lon) (runActs acts initState)).routeChoices =
      (runActs acts initState).routeChoices ∧
    (step (.mapClick lat lon) (runActs acts initState)).selectedRouteId =
      (runActs acts initState).selectedRouteId ∧
    (step (.mapClick lat lon) (runActs acts initState)).routeMarkers =
      (runActs acts initState).routeMarkers ∧
    (step (.mapClick lat lon) (runActs acts initState)).error =
      (runActs acts initState).error ∧
    (step (.mapClick lat' lon')
        (step (.mapClick lat lon) (runActs acts initState))).hazardLocation =
      some ⟨lat, lon⟩ := by
  suffices H : ∀ s : AppState, s.hazardPickMode = true →
      (step (.mapClick lat lon) s).hazardLocation = some ⟨lat, lon⟩ ∧
      (step (.mapClick lat lon) s).hazardPickMode = false ∧
      (step (.mapClick lat lon) s).start = s.start ∧
      (step (.mapClick lat lon) s).endPoint = s.endPoint ∧
      (step (.mapClick lat lon) s).startPlace = s.startPlace ∧
      (step (.mapClick lat lon) s).endPlace = s.endPlace ∧
      (step (.mapClick lat lon) s).routeChoices = s.routeChoices ∧
      (step (.mapClick lat lon) s).selectedRouteId = s.selectedRouteId ∧
      (step (.mapClick lat lon) s).routeMarkers = s.routeMarkers ∧
      (step (.mapClick lat lon) s).error = s.error ∧
      (step (.mapClick lat' lon') (step (.mapClick lat lon) s)).hazardLocation =
        some ⟨lat, lon⟩ from H _ h
  intro s hpm
  have hone : step (.mapClick lat lon) s =
      { s with hazardPickMode := false, hazardLocation := some ⟨lat, lon⟩ } := by
    simp [step, hpm]
  rw [hone]
  refine ⟨rfl, rfl, rfl, rfl, rfl, rfl, rfl, rfl, rfl, rfl, ?_⟩
  simp only [step, Bool.false_eq_true, if_false, normalMapClick]
  split <;> simp [clearRouteState]

/-- Witness for C9: toggle hazard-pick on, then click. -/
theorem hazard_pick_one_shot_witness :
    (step (.mapClick 3 4) (runActs [.toggleHazardPick] initState)).hazardLocation =
      some ⟨3, 4⟩ ∧
    (step (.mapClick 3 4) (runActs [.toggleHazardPick] initState)).hazardPickMode =
      false :=
  ⟨(hazard_pick_one_shot [.toggleHazardPick] 3 4 0 0 (by decide)).1,
   (hazard_pick_one_shot [.toggleHazardPick] 3 4 0 0 (by decide)).2.1⟩

/-! ## Claim C8 (corrected): the device-location default latch

The claim says the fix becomes the default start "if and only if start
has never been set by any other means".  The code's guard
(App.tsx line 134) is `!hasDefaultedStart.current && !currentStart`:
it only requires start to be *currently* unset — a start that was set by
a map click and later cleared still gets defaulted. -/

/-- Claim C8, counterexample: start is set by a map click, then cleared
with the Clear button; the first successful device fix still becomes the
default start although start had been set by another means before. -/
theorem device_latch_counterexample :
    (runActs [.mapClick 1 1] initState).start = some ⟨1, 1⟩ ∧
    (runActs [.mapClick 1 1, .clearAll] initState).hasDefaultedStart = false ∧
    (runActs [.mapClick 1 1, .clearAll] initState).start = none ∧
    (runActs [.mapClick 1 1, .clearAll, .deviceFix 2 2] initState).start =
      some ⟨2, 2⟩ ∧
    (runActs [.mapClick 1 1, .clearAll, .deviceFix 2 2] initState).hasDefaultedStart =
      true := by
  refine ⟨?_, ?_, ?_, ?_, ?_⟩ <;> decide

theorem step_hasDefaultedStart_mono (a : Action) (s : AppState)
    (h : s.hasDefaultedStart = true) : (step a s).hasDefaultedStart = true := by
  cases a <;>
    simp only [step, stepSetStartInputs, stepSetEndInputs,
      stepPlaceSearchStart, stepGeocodeDone, stepRoute, stepDeviceFix,
      stepReverseDone, stepCompleteFetch, normalMapClick,
      applyGeocodeResult, clearRouteState, dispatchEffectFetch] <;>
    (repeat' split) <;> simp_all

theorem runActs_hasDefaultedStart_mono (acts : List Action) (s : AppState)
    (h : s.hasDefaultedStart = true) :
    (runActs acts s).hasDefaultedStart = true := by
  induction acts generalizing s with
  | nil => exact h
  | cons a rest ih => exact ih _ (step_hasDefaultedStart_mono a s h)

/-- Claim C8, amended: the fix becomes the default start if and only if
the latch is unconsumed and start is *currently* unset (regardless of
whether start had been set and cleared earlier); the latch is then
permanently consumed for the session; and the reverse-geocode label is
applied only when start is still within 1e-6 degrees (strictly, per
component) of the captured coordinate, and is silently discarded
otherwise. -/
theorem device_location_latch_amended (s : AppState) (lat lon : ℚ) :
    ((s.hasDefaultedStart = false ∧ s.start = none) →
      step (.deviceFix lat lon) s =
        { s with deviceLocation := some ⟨lat, lon⟩
                 start := some ⟨lat, lon⟩
                 startPlace := "Current location"
                 hasDefaultedStart := true
                 pendingReverse := s.pendingReverse ++ [⟨lat, lon⟩] }) ∧
    ((s.hasDefaultedStart = true ∨ s.start ≠ none) →
      step (.deviceFix lat lon) s =
        { s with deviceLocation := some ⟨lat, lon⟩ }) ∧
    (∀ acts, s.hasDefaultedStart = true →
      (runActs acts s).hasDefaultedStart = true) ∧
    (∀ i label captured, s.pendingReverse[i]? = some captured →
      (step (.reverseDone i (some label)) s).start = s.start ∧
      (step (.reverseDone i (some label)) s).startPlace =
        (match s.start with
         | some st => if isSameLocation st captured then label else s.startPlace
         | none => s.startPlace)) := by
  refine ⟨?_, ?_, fun acts => runActs_hasDefaultedStart_mono acts s, ?_⟩
  · rintro ⟨h₁, h₂⟩
    simp [step, stepDeviceFix, h₁, h₂]
  · intro h
    rcases h with h | h
    · simp [step, stepDeviceFix, h]
    · simp [step, stepDeviceFix, h]
  · intro i label captured hp
    simp only [step, stepReverseDone, hp]
    cases hst : s.start with
    | none => simp [hst]
    | some st =>
        by_cases hsame : isSameLocation st captured
        · simp [hst, hsame]
        · simp [hst, hsame]

/-- Witness for the amended C8: the very first fix on the initial state
becomes the default start. -/
theorem device_location_latch_amended_witness :
    step (.deviceFix 2 2) initState =
      { initState with deviceLocation := some ⟨2, 2⟩
                       start := some ⟨2, 2⟩
                       startPlace := "Current location"
                       hasDefaultedStart := true
                       pendingReverse := initState.pendingReverse ++ [⟨2, 2⟩] } :=
  (device_location_latch_amended initState 2 2).1 ⟨rfl, rfl⟩

/-! ## Claim C7: marker-fetch staleness

Invariant machinery for the marker-fetch model: every in-flight guarded
(effect) fetch whose ghost dispatch epoch no longer matches the current
epoch has been cancelled by the effect cleanup, and an uncancelled
guarded fetch always carries the current route-choice ids. -/

def FetchInv (s : AppState) : Prop :=
  ∀ f ∈ s.inflight, f.guarded = true →
    (f.epoch ≠ s.epoch → f.cancelled = true) ∧
    (f.cancelled = false → f.ids = s.routeChoices.map fun c => c.id)

theorem mem_cancelGuarded_cancelled (fs : List MarkerFetch) (f : MarkerFetch)
    (hf : f ∈ cancelGuarded fs) (hg : f.guarded = true) : f.cancelled = true := by
  obtain ⟨f₀, hf₀, rfl⟩ := List.mem_map.mp hf
  by_cases h : f₀.guarded = true
  · simp [h]
  · rw [if_neg h] at hg ⊢
    exact absurd hg h

theorem mem_cancelGuarded_src (fs : List MarkerFetch) (f : MarkerFetch)
    (hf : f ∈ cancelGuarded fs) :
    ∃ f₀ ∈ fs, f.bounds = f₀.bounds ∧ f.ids = f₀.ids := by
  obtain ⟨f₀, hf₀, rfl⟩ := List.mem_map.mp hf
  by_cases h : f₀.guarded = true <;> simp [h] <;> exact ⟨f₀, hf₀, rfl, rfl⟩

theorem fetchInv_cancelAll (s' : AppState) (fs : List MarkerFetch)
    (hin : s'.inflight = cancelGuarded fs) : FetchInv s' := by
  intro f hf hg
  rw [hin] at hf
  have hc := mem_cancelGuarded_cancelled fs f hf hg
  refine ⟨fun _ => hc, fun hfalse => ?_⟩
  rw [hc] at hfalse
  cases hfalse

theorem fetchInv_of_eq (s s' : AppState) (h : FetchInv s)
    (h₁ : s'.inflight = s.inflight) (h₂ : s'.epoch = s.epoch)
    (h₃ : s'.routeChoices = s.routeChoices) : FetchInv s' := by
  intro f hf hg
  rw [h₁] at hf
  rw [h₂, h₃]
  exact h f hf hg

theorem fetchInv_dispatchEffectFetch (s : AppState) (h : FetchInv s) :
    FetchInv (dispatchEffectFetch s) := by
  rw [dispatchEffectFetch]
  split
  · exact h
  · split
    · exact h
    · intro f hf hg
      rcases List.mem_append.mp hf with hmem | hmem
      · exact h f hmem hg
      · rcases List.mem_singleton.mp hmem with rfl
        exact ⟨fun hc => absurd rfl hc, fun _ => rfl⟩

theorem normalMapClick_inflight (s : AppState) (p : LatLon) :
    (normalMapClick s p).inflight = cancelGuarded s.inflight := by
  rw [normalMapClick]
  split <;> rfl

theorem fetchInv_step (a : Action) (s : AppState) (h : FetchInv s) :
    FetchInv (step a s) := by
  cases a with
  | mapClick lat lon =>
      by_cases hpm : s.hazardPickMode = true
      · simp only [step, hpm, if_true]
        exact fetchInv_of_eq s _ h rfl rfl rfl
      · simp only [step, hpm, if_false, Bool.not_eq_true] at *
        simp only [step, hpm, Bool.false_eq_true, if_false]
        exact fetchInv_cancelAll _ s.inflight (normalMapClick_inflight s _)
  | setStartInputs latVal lonVal =>
      refine fetchInv_cancelAll _ s.inflight ?_
      simp only [step, stepSetStartInputs]
      split <;> first
        | rfl
        | (split <;> rfl)
  | setEndInputs latVal lonVal =>
      refine fetchInv_cancelAll _ s.inflight ?_
      simp only [step, stepSetEndInputs]
      split <;> first
        | rfl
        | (split <;> rfl)
  | placeSearchStart t queryEmpty =>
      simp only [step, stepPlaceSearchStart]
      split
      · exact fetchInv_of_eq s _ h rfl rfl rfl
      · exact fetchInv_cancelAll _ s.inflight rfl
  | geocodeDone i res =>
      simp only [step, stepGeocodeDone, applyGeocodeResult]
      split
      · exact h
      · split
        · split
          · split <;> exact fetchInv_of_eq s _ h rfl rfl rfl
          · exact fetchInv_of_eq s _ h rfl rfl rfl
        · exact fetchInv_of_eq s _ h rfl rfl rfl
  | route responses =>
      simp only [step, stepRoute]
      split
      · split
        · -- valid coordinates: aggregation ran
          split
          · -- all variants failed: only the cleared state with an error
            exact fetchInv_cancelAll _ s.inflight rfl
          · -- ok: direct unguarded fetch, then the effect fetch
            refine fetchInv_dispatchEffectFetch _ ?_
            intro f hf hg
            split at hf
            · rcases List.mem_append.mp hf with hmem | hmem
              · have hc := mem_cancelGuarded_cancelled s.inflight f hmem hg
                refine ⟨fun _ => hc, fun hfalse => ?_⟩
                rw [hc] at hfalse
                cases hfalse
              · rcases List.mem_singleton.mp hmem with rfl
                cases hg
            · have hc := mem_cancelGuarded_cancelled s.inflight f hf hg
              refine ⟨fun _ => hc, fun hfalse => ?_⟩
              rw [hc] at hfalse
              cases hfalse
        · exact fetchInv_cancelAll _ s.inflight rfl
      · exact fetchInv_cancelAll _ s.inflight rfl
  | selectRoute i =>
      simp only [step]
      split
      · exact fetchInv_of_eq s _ h rfl rfl rfl
      · exact h
  | toggleHazardPick => exact fetchInv_of_eq s _ h rfl rfl rfl
  | clearHazardLocation => exact fetchInv_of_eq s _ h rfl rfl rfl
  | clearAll => exact fetchInv_cancelAll _ s.inflight rfl
  | setTravelMode m =>
      simp only [step]
      split
      · exact h
      · exact fetchInv_cancelAll _ s.inflight rfl
  | boundsChange b =>
      refine fetchInv_dispatchEffectFetch _ ?_
      exact fetchInv_cancelAll _ s.inflight rfl
  | deviceFix lat lon =>
      simp only [step, stepDeviceFix]
      split
      · exact fetchInv_of_eq s _ h rfl rfl rfl
      · exact fetchInv_of_eq s _ h rfl rfl rfl
  | deviceFixFail => exact fetchInv_of_eq s _ h rfl rfl rfl
  | reverseDone i res =>
      simp only [step, stepReverseDone]
      split
      · exact h
      · split
        · exact fetchInv_of_eq s _ h rfl rfl rfl
        · split
          · split
            · exact fetchInv_of_eq s _ h rfl rfl rfl
            · exact fetchInv_of_eq s _ h rfl rfl rfl
          · exact fetchInv_of_eq s _ h rfl rfl rfl
  | completeMarkerFetch i res =>
      simp only [step, stepCompleteFetch]
      split
      · exact h
      · have hsub : ∀ f, f ∈ s.inflight.eraseIdx i → f ∈ s.inflight :=
          fun f hf => (List.eraseIdx_sublist s.inflight i).subset hf
        split
        · intro f hf hg
          exact h f (hsub f hf) hg
        · split
          · intro f hf hg
            exact h f (hsub f hf) hg
          · intro f hf hg
            exact h f (hsub f hf) hg

theorem fetchInv_runActs (acts : List Action) : FetchInv (runActs acts initState) := by
  have hinit : FetchInv initState := by
    intro f hf
    cases hf
  induction acts using List.reverseRecOn with
  | nil => exact hinit
  | append_singleton rest a ih =>
      rw [runActs, List.foldl_append]
      exact fetchInv_step a _ ih

theorem aggregateRoutes_choices_ne_nil_of_error_none (mode : TravelMode)
    (responses : List RouteResponse)
    (h : (aggregateRoutes mode responses).error = none) :
    (aggregateRoutes mode responses).choices ≠ [] := by
  rw [aggregateRoutes] at h ⊢
  by_cases hok : okEntries ((variantsFor mode).zip responses) = []
  · rw [if_pos hok] at h
    cases h
  · rw [if_neg hok] at h ⊢
    show sortRanked mode _ ≠ []
    refine sortRanked_ne_nil mode _ ?_
    intro hc
    rw [List.map_eq_nil_iff] at hc
    exact buildGroups_ne_nil _ hok hc

/-- Reachable-state dispatch invariant: in-flight marker fetches only
exist when the viewport bounds are known, and each carries the non-empty
route-choice id snapshot taken at dispatch. -/
def DispatchInv (s : AppState) : Prop :=
  (s.inflight ≠ [] → s.mapBounds ≠ none) ∧ ∀ f ∈ s.inflight, f.ids ≠ []

theorem cancelGuarded_eq_nil_iff (fs : List MarkerFetch) :
    cancelGuarded fs = [] ↔ fs = [] := by
  rw [cancelGuarded, List.map_eq_nil_iff]

theorem dispatchInv_cancel (s s' : AppState) (h : DispatchInv s)
    (h₁ : s'.inflight = cancelGuarded s.inflight) (h₂ : s'.mapBounds = s.mapBounds) :
    DispatchInv s' := by
  constructor
  · intro hne
    rw [h₁, Ne, cancelGuarded_eq_nil_iff] at hne
    rw [h₂]
    exact h.1 hne
  · intro f hf
    rw [h₁] at hf
    obtain ⟨f₀, hf₀, _, hids⟩ := mem_cancelGuarded_src _ f hf
    rw [hids]
    exact h.2 f₀ hf₀

theorem dispatchInv_dispatchEffectFetch (t : AppState) (h : DispatchInv t) :
    DispatchInv (dispatchEffectFetch t) := by
  rw [dispatchEffectFetch]
  split
  · exact h
  · split
    · exact h
    · rename_i b hb hne
      constructor
      · intro _
        show t.mapBounds ≠ none
        rw [hb]
        exact fun hc => Option.noConfusion hc
      · intro f hf
        rcases List.mem_append.mp hf with hmem | hmem
        · exact h.2 f hmem
        · rcases List.mem_singleton.mp hmem with rfl
          show t.routeChoices.map (fun c => c.id) ≠ []
          rw [Ne, List.map_eq_nil_iff]
          exact hne

theorem dispatchInv_step (a : Action) (s : AppState) (h : DispatchInv s) :
    DispatchInv (step a s) := by
  cases a with
  | mapClick lat lon =>
      by_cases hpm : s.hazardPickMode = true
      · simp only [step, hpm, if_true]
        exact ⟨h.1, h.2⟩
      · simp only [step, hpm, Bool.false_eq_true, if_false]
        refine dispatchInv_cancel s _ h (normalMapClick_inflight s _) ?_
        rw [normalMapClick]
        split <;> rfl
  | setStartInputs latVal lonVal =>
      refine dispatchInv_cancel s _ h ?_ ?_ <;>
        (simp only [step, stepSetStartInputs]; split) <;>
        first
          | rfl
          | (split <;> rfl)
  | setEndInputs latVal lonVal =>
      refine dispatchInv_cancel s _ h ?_ ?_ <;>
        (simp only [step, stepSetEndInputs]; split) <;>
        first
          | rfl
          | (split <;> rfl)
  | placeSearchStart t queryEmpty =>
      simp only [step, stepPlaceSearchStart]
      split
      · exact ⟨h.1, h.2⟩
      · exact dispatchInv_cancel s _ h rfl rfl
  | geocodeDone i res =>
      simp only [step, stepGeocodeDone, applyGeocodeResult]
      split
      · exact h
      · split
        · split
          · split <;> exact ⟨h.1, h.2⟩
          · exact ⟨h.1, h.2⟩
        · exact ⟨h.1, h.2⟩
  | route responses =>
      simp only [step, stepRoute]
      split
      · split
        · split
          · exact dispatchInv_cancel s _ h rfl rfl
          · rename_i agg_err
            refine dispatchInv_dispatchEffectFetch _ ?_
            split
            · rename_i b hb
              have hb' : s.mapBounds = some b := hb
              constructor
              · intro _
                show s.mapBounds ≠ none
                rw [hb']
                exact fun hc => Option.noConfusion hc
              · intro f hf
                rcases List.mem_append.mp hf with hmem | hmem
                · obtain ⟨f₀, hf₀, _, hids⟩ := mem_cancelGuarded_src _ f hmem
                  rw [hids]
                  exact h.2 f₀ hf₀
                · rcases List.mem_singleton.mp hmem with rfl
                  show (aggregateRoutes s.travelMode responses).choices.map
                    (fun c => c.id) ≠ []
                  rw [Ne, List.map_eq_nil_iff]
                  exact aggregateRoutes_choices_ne_nil_of_error_none _ _ agg_err
            · exact dispatchInv_cancel s _ h rfl rfl
        · exact dispatchInv_cancel s _ h rfl rfl
      · exact dispatchInv_cancel s _ h rfl rfl
  | selectRoute i =>
      simp only [step]
      split
      · exact ⟨h.1, h.2⟩
      · exact h
  | toggleHazardPick => exact ⟨h.1, h.2⟩
  | clearHazardLocation => exact ⟨h.1, h.2⟩
  | clearAll => exact dispatchInv_cancel s _ h rfl rfl
  | setTravelMode m =>
      simp only [step]
      split
      · exact h
      · exact dispatchInv_cancel s _ h rfl rfl
  | boundsChange b =>
      refine dispatchInv_dispatchEffectFetch _ ?_
      constructor
      · intro _
        exact fun hc => Option.noConfusion hc
      · intro f hf
        obtain ⟨f₀, hf₀, _, hids⟩ := mem_cancelGuarded_src _ f hf
        rw [hids]
        exact h.2 f₀ hf₀
  | deviceFix lat lon =>
      simp only [step, stepDeviceFix]
      split
      · exact ⟨h.1, h.2⟩
      · exact ⟨h.1, h.2⟩
  | deviceFixFail => exact ⟨h.1, h.2⟩
  | reverseDone i res =>
      simp only [step, stepReverseDone]
      split
      · exact h
      · split
        · exact ⟨h.1, h.2⟩
        · split
          · split
            · exact ⟨h.1, h.2⟩
            · exact ⟨h.1, h.2⟩
          · exact ⟨h.1, h.2⟩
  | completeMarkerFetch i res =>
      simp only [step, stepCompleteFetch]
      split
      · exact h
      · have hsub : ∀ f, f ∈ s.inflight.eraseIdx i → f ∈ s.inflight :=
          fun f hf => (List.eraseIdx_sublist s.inflight i).subset hf
        have hbase : DispatchInv { s with inflight := s.inflight.eraseIdx i } := by
          constructor
          · intro hne
            refine h.1 ?_
            intro hc
            rw [hc, List.eraseIdx_nil] at hne
            exact hne rfl
          · intro f hf
            exact h.2 f (hsub f hf)
        split
        · exact hbase
        · split
          · exact hbase
          · exact ⟨hbase.1, hbase.2⟩

theorem dispatchInv_runActs (acts : List Action) :
    DispatchInv (runActs acts initState) := by
  have hinit : DispatchInv initState :=
    ⟨fun hne => absurd rfl hne, fun f hf => absurd hf (List.not_mem_nil f)⟩
  induction acts using List.reverseRecOn with
  | nil => exact hinit
  | append_singleton rest a ih =>
      rw [runActs, List.foldl_append]
      exact dispatchInv_step a _ ih

/-! ## Claim C7 (corrected)

The claim says every completed marker fetch whose dispatch-time epoch no
longer matches the current epoch is discarded without mutating the
MarkerSet.  That holds for the guarded fetches of the marker-refresh
effect (their `cancelled` cleanup flag is set whenever `mapBounds` or
`routeChoices` change), but the direct fetch issued at the end of
`handleRoute` (App.tsx lines 379-388) carries no staleness guard: its
response is applied even if the bounds changed after dispatch. -/

/-- Counterexample trace: set both points, learn bounds, route (walk
mode, safe variant succeeds), then pan the map before the direct fetch
completes. -/
def c7Trace : List Action :=
  [.mapClick 0 0, .mapClick 1 1, .boundsChange ⟨0, 1, 0, 1⟩,
   .route [.ok ⟨10, 60, [1], [2], [(0, 0)]⟩, .noRoute "x", .noRoute "y"],
   .boundsChange ⟨2, 3, 2, 3⟩]

/-- Claim C7, counterexample: after `c7Trace` the unguarded direct fetch
(slot 0) was dispatched at epoch 2, the current epoch is 3 (the bounds
changed after dispatch), yet completing it successfully still mutates
the MarkerSet from empty to a broadcast of the returned marker list. -/
theorem marker_staleness_counterexample :
    ((runActs c7Trace initState).inflight[0]?).map
      (fun f => (f.guarded, f.cancelled, f.epoch)) = some (false, false, 2) ∧
    (runActs c7Trace initState).epoch = 3 ∧
    (runActs c7Trace initState).routeMarkers = [] ∧
    (step (.completeMarkerFetch 0 (some [⟨5, 5⟩])) (runActs c7Trace initState)).routeMarkers =
      [("walkSafe", [⟨5, 5⟩])] := by
  refine ⟨?_, ?_, ?_, ?_⟩ <;> decide

/-- Claim C7, amended: a completed *effect* fetch whose dispatch-time
epoch no longer matches the current epoch is discarded without mutating
the MarkerSet (the direct `handleRoute` fetch is applied regardless of
staleness — see the counterexample); no marker fetch is ever in flight
when the viewport bounds are unknown, and every fetch carries the
non-empty route-id snapshot taken at dispatch; a successful applied
fetch broadcasts the one returned marker list to every id of its
snapshot, which for an uncancelled effect fetch is exactly the current
ConsolidatedRoute id set. -/
theorem marker_fetch_epoch_amended (acts : List Action) :
    (∀ i f r, (runActs acts initState).inflight[i]? = some f →
      f.guarded = true → f.epoch ≠ (runActs acts initState).epoch →
      (step (.completeMarkerFetch i r) (runActs acts initState)).routeMarkers =
        (runActs acts initState).routeMarkers) ∧
    ((runActs acts initState).inflight ≠ [] →
      (runActs acts initState).mapBounds ≠ none) ∧
    (∀ f ∈ (runActs acts initState).inflight, f.ids ≠ []) ∧
    (∀ i f markers, (runActs acts initState).inflight[i]? = some f →
      (f.guarded && f.cancelled) = false →
      (step (.completeMarkerFetch i (some markers)) (runActs acts initState)).routeMarkers =
        f.ids.map fun id => (id, markers)) ∧
    (∀ f ∈ (runActs acts initState).inflight, f.guarded = true →
      f.cancelled = false →
      f.ids = (runActs acts initState).routeChoices.map fun c => c.id) := by
  refine ⟨?_, (dispatchInv_runActs acts).1, (dispatchInv_runActs acts).2, ?_, ?_⟩
  · intro i f r hif hg hep
    have hmem : f ∈ (runActs acts initState).inflight := List.getElem?_mem hif
    have hc : f.cancelled = true :=
      ((fetchInv_runActs acts) f hmem hg).1 hep
    simp only [step, stepCompleteFetch, hif]
    cases r with
    | none => rfl
    | some markers => simp [hg, hc]
  · intro i f markers hif hcond
    simp only [step, stepCompleteFetch, hif]
    simp [hcond]
  · intro f hf hg hc
    exact ((fetchInv_runActs acts) f hf hg).2 hc

/-- Witness for the amended C7: in the counterexample trace the *old
effect fetch* (slot 1) is stale and cancelled, and completing it leaves
the MarkerSet untouched. -/
theorem marker_fetch_epoch_amended_witness :
    (step (.completeMarkerFetch 1 (some [⟨5, 5⟩])) (runActs c7Trace initState)).routeMarkers =
      (runActs c7Trace initState).routeMarkers :=
  (marker_fetch_epoch_amended c7Trace).1 1
    ⟨⟨0, 1, 0, 1⟩, ["walkSafe"], true, true, 2⟩ (some [⟨5, 5⟩])
    (by decide) rfl (by decide)

end GroundTruth